import Mathlib

/-!
# Advertisement-chain mirror: configuration profile and ad rewriter

A shallow embedding of `mirror/options.go` (the configuration profile of the
mirror) and of `cmd/provider/mirror.go` (the mirror command), together with a
model of the advertisement rewrite pipeline that consumes the profile, and the
properties proved about them.

Conventions.
* Go `int` values are `Int`; no arithmetic is performed on them by the
  embedded code, so no wrap-around is involved.
* A Go value that may be `nil` (interface, pointer, func) is an `Option`.
* A Go `(T, error)` result is `Except Error T`, a Go `error` result is an
  `Option Error`.
* A function that reads and writes a package-level variable takes its value and
  returns the new one.
-/

set_option autoImplicit false

namespace mirror

/-! ## Part 1. Definitions: `mirror/options.go` -/

/-- Peer identity (`peer.ID`), an opaque value. -/
abbrev PeerID := Nat

/-- Errors returned by the embedded operations. `hostSetup` is an error of
`libp2p.New`, `errorsNew msg` is the value of `errors.New(msg)` and of
`fmt.Errorf` with the formatted text `msg`; the remaining ones are the error
kinds of the ad rewriter. -/
inductive Error where
  | hostSetup (msg : String)
  | errorsNew (msg : String)
  | ErrBadEntriesKind
  | ErrChunkerFailed
  | ErrSignFailed
  | ErrVerification
deriving DecidableEq, Repr

/-- Decision procedure for equality of results. -/
instance instDecidableEqExcept {ε α : Type} [DecidableEq ε] [DecidableEq α] :
    DecidableEq (Except ε α)
  | .ok a, .ok b =>
    if h : a = b then isTrue (by rw [h])
    else isFalse (by intro h2; injection h2 with h3; exact h h3)
  | .error a, .error b =>
    if h : a = b then isTrue (by rw [h])
    else isFalse (by intro h2; injection h2 with h3; exact h h3)
  | .ok _, .error _ => isFalse (by intro h; cases h)
  | .error _, .ok _ => isFalse (by intro h; cases h)

/-- Modelled from the spec: the `host.Host` of libp2p, "network identity+transport
handle". Only its peer identity is observed. -/
structure Host where
  ID : PeerID
deriving DecidableEq, Repr

/-- Modelled from the spec: the `datastore.Batching` of go-datastore, "backing
store handle". `external` is a store handed in by the caller, `mapDatastore` is
the value of `dssync.MutexWrap(datastore.NewMapDatastore())`, the ephemeral
in-memory store. -/
inductive Datastore where
  | external (handle : Nat)
  | mapDatastore
deriving DecidableEq, Repr

/-- Nanoseconds in `time.Minute`. -/
def Minute : Int := 60 * 1000000000

/-- Modelled from the spec: the `time.Ticker` of the Go runtime, "syncInterval:
duration"; `d` is the period in nanoseconds. -/
structure Ticker where
  d : Int
deriving DecidableEq, Repr

/-- The ticker made by `time.NewTicker(d)`. -/
def NewTicker (d : Int) : Ticker := ⟨d⟩

/-- Modelled from the spec: the `selector.RecursionLimit` of go-ipld-prime,
"unbounded | depth(N)". -/
inductive RecursionLimit where
  | none
  | depth (n : Int)
deriving DecidableEq, Repr

/-- The value of `selector.RecursionLimitNone()`. -/
def RecursionLimitNone : RecursionLimit := RecursionLimit.none

/-- The value of `selector.RecursionLimitDepth(n)`. -/
def RecursionLimitDepth (n : Int) : RecursionLimit := RecursionLimit.depth n

/-- Modelled from the spec: the `chunker.NewChunkerFunc` values the options can
install, "chunkerChoice: EntryChunk(chunkSize) | HAMT(hashAlg, bitWidth,
bucketSize)". `chain chunkSize` is `chunker.NewChainChunkerFunc(chunkSize)` and
`hamt hashAlg bitwidth bucketSize` is
`chunker.NewHamtChunkerFunc(hashAlg, bitwidth, bucketSize)`. -/
inductive NewChunkerFunc where
  | chain (chunkSize : Int)
  | hamt (hashAlg : Nat) (bitwidth : Int) (bucketSize : Int)
deriving DecidableEq, Repr

/-- Modelled from the spec: the two `schema.TypedPrototype` values the options can
install: `stischema.EntryChunkPrototype` and `hamt.HashMapRootPrototype`. -/
inductive TypedPrototype where
  | EntryChunkPrototype
  | HashMapRootPrototype
deriving DecidableEq, Repr

/-- The `options` struct. A `nil` host, datastore, ticker, chunker func or
prototype is `none`. -/
structure options where
  h : Option Host
  ds : Option Datastore
  ticker : Option Ticker
  initAdRecurLimit : RecursionLimit
  entriesRecurLimit : RecursionLimit
  chunkerFunc : Option NewChunkerFunc
  chunkCacheCap : Int
  chunkCachePurge : Bool
  topic : String
  skipRemapOnEntriesTypeMatch : Bool
  entriesRemapPrototype : Option TypedPrototype
  alwaysReSignAds : Bool
deriving DecidableEq, Repr

/-- The Go type `Option`, `func(*options) error`: the options after the call, or
the error. -/
abbrev OptionFn := options → Except Error options

/-- The composite literal `newOptions` starts from; the fields it does not name
have Go's zero value. -/
def initialOptions : options :=
  { h := none
    ds := none
    ticker := some (NewTicker (10 * Minute))
    initAdRecurLimit := RecursionLimitNone
    entriesRecurLimit := RecursionLimitNone
    chunkerFunc := none
    chunkCacheCap := 1024
    chunkCachePurge := false
    topic := "/indexer/ingest/mainnet"
    skipRemapOnEntriesTypeMatch := false
    entriesRemapPrototype := none
    alwaysReSignAds := false }

/-- The loop `for _, apply := range o` of `newOptions`: it returns at the first
option that returns an error. -/
def applyAll : List OptionFn → options → Except Error options
  | [], opts => .ok opts
  | apply :: rest, opts =>
    match apply opts with
    | .error err => .error err
    | .ok opts1 => applyAll rest opts1

/-- The function `newOptions`. `libp2pNew` is the outcome of the call
`libp2p.New()`, made only when no host was set. -/
def newOptions (libp2pNew : Except Error Host) (o : List OptionFn) : Except Error options :=
  match applyAll o initialOptions with
  | .error err => .error err
  | .ok opts =>
    let withHost : Except Error options :=
      if opts.h = none then
        match libp2pNew with
        | .error err => .error err
        | .ok h => .ok { opts with h := some h }
      else .ok opts
    match withHost with
    | .error err => .error err
    | .ok opts1 =>
      if opts1.ds = none then .ok { opts1 with ds := some Datastore.mapDatastore }
      else .ok opts1

/-- The method `remapEntriesEnabled`: whether the chunker func is set. -/
def options.remapEntriesEnabled (o : options) : Bool :=
  o.chunkerFunc != none

def WithDatastore (ds : Option Datastore) : OptionFn :=
  fun o => .ok { o with ds := ds }

def WithHost (h : Option Host) : OptionFn :=
  fun o => .ok { o with h := h }

def WithEntryChunkRemapper (chunkSize : Int) : OptionFn :=
  fun o => .ok { o with
    entriesRemapPrototype := some TypedPrototype.EntryChunkPrototype
    chunkerFunc := some (NewChunkerFunc.chain chunkSize) }

def WithHamtRemapper (hashAlg : Nat) (bitwidth bucketSize : Int) : OptionFn :=
  fun o => .ok { o with
    entriesRemapPrototype := some TypedPrototype.HashMapRootPrototype
    chunkerFunc := some (NewChunkerFunc.hamt hashAlg bitwidth bucketSize) }

def WithSkipRemapOnEntriesTypeMatch (s : Bool) : OptionFn :=
  fun o => .ok { o with skipRemapOnEntriesTypeMatch := s }

def WithSyncInterval (t : Option Ticker) : OptionFn :=
  fun o => .ok { o with ticker := t }

def WithInitialAdRecursionLimit (l : RecursionLimit) : OptionFn :=
  fun o => .ok { o with initAdRecurLimit := l }

def WithEntriesRecursionLimit (l : RecursionLimit) : OptionFn :=
  fun o => .ok { o with entriesRecurLimit := l }

def WithRemappedEntriesCacheCapacity (c : Int) : OptionFn :=
  fun o => .ok { o with chunkCacheCap := c }

def WithPurgeCachedEntries (b : Bool) : OptionFn :=
  fun o => .ok { o with chunkCachePurge := b }

def WithTopicName (t : String) : OptionFn :=
  fun o => .ok { o with topic := t }

def WithAlwaysReSignAds (r : Bool) : OptionFn :=
  fun o => .ok { o with alwaysReSignAds := r }

/-- The calls that make an `Option` value: `options` is unexported, so the
exported `With...` constructors of `options.go` are the only way to obtain
one. -/
inductive OptionCall where
  | datastore (ds : Option Datastore)
  | host (h : Option Host)
  | entryChunkRemapper (chunkSize : Int)
  | hamtRemapper (hashAlg : Nat) (bitwidth : Int) (bucketSize : Int)
  | skipRemapOnEntriesTypeMatch (s : Bool)
  | syncInterval (t : Option Ticker)
  | initialAdRecursionLimit (l : RecursionLimit)
  | entriesRecursionLimit (l : RecursionLimit)
  | remappedEntriesCacheCapacity (c : Int)
  | purgeCachedEntries (b : Bool)
  | topicName (t : String)
  | alwaysReSignAds (r : Bool)
deriving DecidableEq, Repr

/-- The `Option` value a call evaluates to. -/
def OptionCall.toOption : OptionCall → OptionFn
  | .datastore ds => WithDatastore ds
  | .host h => WithHost h
  | .entryChunkRemapper chunkSize => WithEntryChunkRemapper chunkSize
  | .hamtRemapper hashAlg bitwidth bucketSize => WithHamtRemapper hashAlg bitwidth bucketSize
  | .skipRemapOnEntriesTypeMatch s => WithSkipRemapOnEntriesTypeMatch s
  | .syncInterval t => WithSyncInterval t
  | .initialAdRecursionLimit l => WithInitialAdRecursionLimit l
  | .entriesRecursionLimit l => WithEntriesRecursionLimit l
  | .remappedEntriesCacheCapacity c => WithRemappedEntriesCacheCapacity c
  | .purgeCachedEntries b => WithPurgeCachedEntries b
  | .topicName t => WithTopicName t
  | .alwaysReSignAds r => WithAlwaysReSignAds r

/-- Whether the call is `WithEntryChunkRemapper` or `WithHamtRemapper`. -/
def OptionCall.isRemapper : OptionCall → Bool
  | .entryChunkRemapper _ => true
  | .hamtRemapper _ _ _ => true
  | _ => false

/-- Whether the call is `WithEntryChunkRemapper`. -/
def OptionCall.isEntryChunkRemapper : OptionCall → Bool
  | .entryChunkRemapper _ => true
  | _ => false

/-- Whether the call is `WithHamtRemapper`. -/
def OptionCall.isHamtRemapper : OptionCall → Bool
  | .hamtRemapper _ _ _ => true
  | _ => false

/-- The chunker func and the remap prototype that a remapper call installs; `none`
for every other call. -/
def OptionCall.remap : OptionCall → Option (NewChunkerFunc × TypedPrototype)
  | .entryChunkRemapper chunkSize =>
    some (NewChunkerFunc.chain chunkSize, TypedPrototype.EntryChunkPrototype)
  | .hamtRemapper hashAlg bitwidth bucketSize =>
    some (NewChunkerFunc.hamt hashAlg bitwidth bucketSize, TypedPrototype.HashMapRootPrototype)
  | _ => none

/-- What the remapper call that comes last in a list installs; `none` when the
list has no remapper call. -/
def lastRemapper : List OptionCall → Option (NewChunkerFunc × TypedPrototype)
  | [] => none
  | c :: rest =>
    match lastRemapper rest with
    | some r => some r
    | none => c.remap

/-! ## Part 2. Definitions: entries DAGs and the chunker factory (spec §3, §4.2) -/

/-- Modelled from the spec: a multihash, an opaque binary value; the list holds
its bytes. -/
abbrev Multihash := List Nat

/-- Modelled from the spec: the EntryChunk DAG, "a chain of chunks, each carrying
an ordered slice of multihashes plus an optional `Next` link to the following
chunk". Links are content addresses, so the `Next` link is identified with the
chunk it addresses. -/
inductive EntryChunk where
  | mk (Entries : List Multihash) (Next : Option EntryChunk)

/-- Decision procedure for equality of EntryChunk chains. -/
def EntryChunk.decEq : (a b : EntryChunk) → Decidable (a = b)
  | .mk e1 none, .mk e2 none =>
    if h : e1 = e2 then isTrue (by rw [h])
    else isFalse (by intro h2; injection h2 with h3 _; exact h h3)
  | .mk _ none, .mk _ (some _) => isFalse (by intro h; injection h with _ h; cases h)
  | .mk _ (some _), .mk _ none => isFalse (by intro h; injection h with _ h; cases h)
  | .mk e1 (some n1), .mk e2 (some n2) =>
    if h : e1 = e2 then
      match EntryChunk.decEq n1 n2 with
      | isTrue hn => isTrue (by rw [h, hn])
      | isFalse hn =>
        isFalse (by intro h2; injection h2 with _ h3; injection h3 with h4; exact hn h4)
    else isFalse (by intro h2; injection h2 with h3 _; exact h h3)

instance : DecidableEq EntryChunk := EntryChunk.decEq

/-- Modelled from the spec: the EntryChunk-walking multihash iterator: the
multihashes of the root chunk in order, then those reached through `Next`. -/
def EntryChunk.mhs : EntryChunk → List Multihash
  | .mk es none => es
  | .mk es (some next) => es ++ next.mhs

/-- Modelled from the spec: a node of the HAMT, "a hash-array-mapped-trie keyed by
multihash": either a bucket of keys (the value of every key is the zero-byte
presence marker and is not represented) or an inner node with its slots. -/
inductive HashMapNode where
  | bucket (keys : List Multihash)
  | node (slots : List HashMapNode)

mutual
/-- Decision procedure for equality of HAMT nodes. -/
def HashMapNode.decEq : (a b : HashMapNode) → Decidable (a = b)
  | .bucket k1, .bucket k2 =>
    if h : k1 = k2 then isTrue (by rw [h])
    else isFalse (by intro h2; injection h2 with h3; exact h h3)
  | .bucket _, .node _ => isFalse (by intro h; cases h)
  | .node _, .bucket _ => isFalse (by intro h; cases h)
  | .node s1, .node s2 =>
    match HashMapNode.decEqSlots s1 s2 with
    | isTrue h => isTrue (by rw [h])
    | isFalse h => isFalse (by intro h2; injection h2 with h3; exact h h3)
/-- Decision procedure for equality of slot sequences. -/
def HashMapNode.decEqSlots : (a b : List HashMapNode) → Decidable (a = b)
  | [], [] => isTrue rfl
  | [], _ :: _ => isFalse (by intro h; cases h)
  | _ :: _, [] => isFalse (by intro h; cases h)
  | a :: as, b :: bs =>
    match HashMapNode.decEq a b with
    | isTrue h =>
      match HashMapNode.decEqSlots as bs with
      | isTrue h2 => isTrue (by rw [h, h2])
      | isFalse h2 => isFalse (by intro h3; injection h3 with _ h4; exact h2 h4)
    | isFalse h => isFalse (by intro h3; injection h3 with h4 _; exact h h4)
end

instance : DecidableEq HashMapNode := HashMapNode.decEq

mutual
/-- Modelled from the spec: the HAMT-walking multihash iterator, the "canonical
traversal": buckets are visited slot by slot, depth first. -/
def HashMapNode.keys : HashMapNode → List Multihash
  | .bucket ks => ks
  | .node slots => HashMapNode.slotsKeys slots
/-- The keys under a sequence of slots, in slot order. -/
def HashMapNode.slotsKeys : List HashMapNode → List Multihash
  | [] => []
  | s :: rest => s.keys ++ HashMapNode.slotsKeys rest
end

/-- Modelled from the spec: the root of a HAMT, "parameterised by (hashAlgorithm,
bitWidth, bucketSize)". -/
structure HashMapRoot where
  hashAlg : Nat
  bitWidth : Int
  bucketSize : Int
  hamt : HashMapNode
deriving DecidableEq

/-- Modelled from the spec: an entries root, "either the sentinel `NoEntries`, or a
link to one of" an EntryChunk DAG or a HAMT; `unknown` is a link to a root of no
recognised kind. Links are content addresses: two links are equal exactly when
they address the same DAG, so a link is identified with the DAG behind it. -/
inductive Link where
  | NoEntries
  | entryChunk (root : EntryChunk)
  | hamt (root : HashMapRoot)
  | unknown (cid : Nat)
deriving DecidableEq

/-- Modelled from the spec: "`sourceKind ∈ {NoEntries, EntryChunk, HAMT, Unknown}`",
the kind detected from the root node's schema. -/
inductive EntriesKind where
  | NoEntries
  | EntryChunk
  | HAMT
  | Unknown
deriving DecidableEq, Repr

/-- Modelled from the spec: detection of the kind of an entries root. -/
def Link.kind : Link → EntriesKind
  | .NoEntries => EntriesKind.NoEntries
  | .entryChunk _ => EntriesKind.EntryChunk
  | .hamt _ => EntriesKind.HAMT
  | .unknown _ => EntriesKind.Unknown

/-- Modelled from the spec: the target kind of a configured remap prototype. -/
def TypedPrototype.kind : TypedPrototype → EntriesKind
  | .EntryChunkPrototype => EntriesKind.EntryChunk
  | .HashMapRootPrototype => EntriesKind.HAMT

/-- Modelled from the spec: `mh(X)`, the multihashes reachable under entries root
`X`, in iteration order. Nothing is reachable under `NoEntries` or under a root
of no recognised kind. -/
def Link.mh : Link → List Multihash
  | .NoEntries => []
  | .entryChunk root => root.mhs
  | .hamt root => root.hamt.keys
  | .unknown _ => []

/-- Modelled from the spec: the `EntryChunkChunker(chunkSize)` of the chunker
factory, which is not among the source files: it "accumulates up to `chunkSize`
multihashes per chunk; on flush, writes the chunk `{Entries: [...], Next:
previousRootOrNil}` and updates `previousRoot`", so that "the root is the last
chunk written". `mhs` are the multihashes accumulated so far and `previousRoot`
the last chunk written. A chunk is flushed as soon as it holds `chunkSize`
multihashes, and the remainder is flushed when the iterator is drained. -/
def chainChunkLoop (chunkSize : Int) :
    List Multihash → List Multihash → Option EntryChunk → Option EntryChunk
  | [], mhs, previousRoot =>
    if mhs.length ≠ 0 then some (EntryChunk.mk mhs previousRoot) else previousRoot
  | mh :: rest, mhs, previousRoot =>
    if ((mhs ++ [mh]).length : Int) ≥ chunkSize then
      chainChunkLoop chunkSize rest [] (some (EntryChunk.mk (mhs ++ [mh]) previousRoot))
    else
      chainChunkLoop chunkSize rest (mhs ++ [mh]) previousRoot

/-- Modelled from the spec: the chain chunker applied to the multihashes an
iterator yields; `none` when no chunk was written. -/
def chainChunk (chunkSize : Int) (iter : List Multihash) : Option EntryChunk :=
  chainChunkLoop chunkSize iter [] none

/-- Modelled from the spec: the hashing machinery the HAMT consumes, an external
collaborator. `slot hashAlg bitWidth depth key` is the slot that the digest of
`key` under `hashAlg` selects at `depth` (it is reduced modulo the number of
slots), and `maxDepth hashAlg bitWidth` is the depth at which the digest is
used up. -/
structure Hashing where
  slot : Nat → Nat → Nat → Multihash → Nat
  maxDepth : Nat → Nat → Nat

/-- Modelled from the spec: the shape of the HAMT holding `keys` at `depth`:
"Parameters control branching (`2^bitWidth` slots per node) and bucket size
(maximum keys before splitting a bucket into a child node)". `fuel` is the
number of levels the digest still provides; keys whose digests are used up stay
in one bucket. -/
def buildNode (slotOf : Nat → Multihash → Nat) (bitWidth bucketSize : Nat) :
    Nat → Nat → List Multihash → HashMapNode
  | 0, _, keys => HashMapNode.bucket keys
  | fuel + 1, depth, keys =>
    if keys.length ≤ bucketSize then HashMapNode.bucket keys
    else
      HashMapNode.node ((List.range (2 ^ bitWidth)).map fun i =>
        buildNode slotOf bitWidth bucketSize fuel (depth + 1)
          (keys.filter fun k => slotOf depth k % 2 ^ bitWidth = i))

/-- Modelled from the spec: the `HamtChunker(hashAlg, bitWidth, bucketSize)` of the
chunker factory, which is not among the source files: it "builds a HAMT keyed by
the binary multihash" from the multihashes the iterator yields, every one of
which is enumerated again from the root ("mh(M.Entries) = mh(S.Entries)" as
multisets), and "insertion order is irrelevant to the root hash", so the keys are
taken in their canonical (sorted) order. -/
def hamtChunk (hashing : Hashing) (hashAlg : Nat) (bitwidth bucketSize : Int)
    (iter : List Multihash) : HashMapRoot :=
  { hashAlg := hashAlg
    bitWidth := bitwidth
    bucketSize := bucketSize
    hamt := buildNode (hashing.slot hashAlg bitwidth.toNat) bitwidth.toNat bucketSize.toNat
      (hashing.maxDepth hashAlg bitwidth.toNat) 0
      (iter.insertionSort (fun a b => a ≤ b)) }

/-- Modelled from the spec: the chunker a `NewChunkerFunc` makes, applied to the
multihashes an iterator yields: it "drains the iterator and yields a root
link". The chain chunker yields no root for an iterator that yields nothing,
which is `ErrChunkerFailed`. -/
def NewChunkerFunc.Chunk (hashing : Hashing) (f : NewChunkerFunc) (iter : List Multihash) :
    Except Error Link :=
  match f with
  | .chain chunkSize =>
    match chainChunk chunkSize iter with
    | none => .error Error.ErrChunkerFailed
    | some root => .ok (Link.entryChunk root)
  | .hamt hashAlg bitwidth bucketSize =>
    .ok (Link.hamt (hamtChunk hashing hashAlg bitwidth bucketSize iter))

/-! ## Part 3. Definitions: advertisements and the ad rewriter (spec §3, §4.6) -/

/-- Content address of an advertisement. -/
abbrev Cid := Nat

/-- Modelled from the spec: what a signature covers, "a canonical subset" of the
fields of the advertisement, with the two links the rewriter may alter among
them ("any source signature is invalidated whenever those change"). -/
structure SignaturePayload where
  PreviousID : Option Cid
  Entries : Link
  Provider : String
  Addresses : List String
  Metadata : List Nat
  IsRm : Bool
deriving DecidableEq

/-- Modelled from the spec: a signature, the identity that made it and the payload
it was made over. -/
structure Signature where
  signer : PeerID
  payload : SignaturePayload
deriving DecidableEq

/-- Modelled from the spec: the advertisement record of §3. -/
structure Advertisement where
  PreviousID : Option Cid
  Provider : String
  Addresses : List String
  Signature : Signature
  Entries : Link
  ContextID : List Nat
  Metadata : List Nat
  IsRm : Bool
deriving DecidableEq

/-- Modelled from the spec: the payload of an advertisement that signatures
cover. -/
def Advertisement.signaturePayload (ad : Advertisement) : SignaturePayload :=
  { PreviousID := ad.PreviousID
    Entries := ad.Entries
    Provider := ad.Provider
    Addresses := ad.Addresses
    Metadata := ad.Metadata
    IsRm := ad.IsRm }

/-- Modelled from the spec: signing of an advertisement by an identity. -/
def Advertisement.Sign (ad : Advertisement) (signer : PeerID) : Advertisement :=
  { ad with Signature := { signer := signer, payload := ad.signaturePayload } }

/-- Modelled from the spec: `verify(M)`, as `VerifySignature` is used by
`requireAdMirrored`: the signer, when the signature was made over the payload of
this advertisement, and an error otherwise. -/
def Advertisement.VerifySignature (ad : Advertisement) : Except Error PeerID :=
  if ad.Signature.payload = ad.signaturePayload then .ok ad.Signature.signer
  else .error Error.ErrVerification

/-- The signer `requireAdMirrored` of `mirror_env_test.go` requires of a mirrored
advertisement. -/
def wantSigner (alwaysReSignAds : Bool) (sourceHostID mirrorHostID : PeerID)
    (original mirrored : Advertisement) : PeerID :=
  if alwaysReSignAds = true ∨ original.Entries ≠ mirrored.Entries
      ∨ original.PreviousID ≠ mirrored.PreviousID then
    mirrorHostID
  else
    sourceHostID

/-- Modelled from the spec: step 1 of the ad rewriter, which is not among the
source files: "If `S.PreviousID = ∅`, output `nil`. Else if the mirror has a
mapping for `S.PreviousID`, output that mirrored link. Else carry `S.PreviousID`
through verbatim". -/
def rewritePreviousID (mapping : List (Cid × Cid)) : Option Cid → Option Cid
  | none => none
  | some previousID =>
    match mapping.lookup previousID with
    | some mirrored => some mirrored
    | none => some previousID

/-- Modelled from the spec: whether the skip-on-type-match rule fires:
"`skipRemapOnTypeMatch` is true and the configured chunker's target kind equals
`sourceKind`". The target kind is that of the configured remap prototype. -/
def skipRemap (o : options) (entries : Link) : Bool :=
  o.skipRemapOnEntriesTypeMatch && (o.entriesRemapPrototype.map TypedPrototype.kind == some entries.kind)

/-- Modelled from the spec: step 2 of the ad rewriter, which is not among the
source files, its four cases in the order of §4.6. A root of no recognised kind
has no multihash iterator, which is `ErrBadEntriesKind`. -/
def remapEntries (hashing : Hashing) (o : options) (entries : Link) : Except Error Link :=
  if entries = Link.NoEntries then .ok Link.NoEntries
  else
    match o.chunkerFunc with
    | none => .ok entries
    | some chunkerFunc =>
      if skipRemap o entries = true then .ok entries
      else
        match entries with
        | .entryChunk root => chunkerFunc.Chunk hashing root.mhs
        | .hamt root => chunkerFunc.Chunk hashing root.hamt.keys
        | _ => .error Error.ErrBadEntriesKind

/-- Modelled from the spec: the ad rewriter (§4.6), which is not among the source
files: the previous link and the entries link are rewritten, the other fields
are carried over, and the result is re-signed with the identity of the mirror's
host "if `changed ∨ alwaysReSignAds`"; otherwise the signature of the source is
emitted verbatim. Without a host there is no identity to sign with, which is
`ErrSignFailed`. -/
def rewriteAd (hashing : Hashing) (o : options) (mapping : List (Cid × Cid))
    (S : Advertisement) : Except Error Advertisement :=
  match remapEntries hashing o S.Entries with
  | .error err => .error err
  | .ok entries =>
    let previousID := rewritePreviousID mapping S.PreviousID
    let M : Advertisement := { S with PreviousID := previousID, Entries := entries }
    if previousID ≠ S.PreviousID ∨ entries ≠ S.Entries ∨ o.alwaysReSignAds = true then
      match o.h with
      | none => .error Error.ErrSignFailed
      | some h => .ok (M.Sign h.ID)
    else .ok M

/-! ## Part 4. Definitions: the mirror store and the replication loop (spec §4.4, §4.7) -/

/-- Modelled from the spec: the mirror store (§4.4): the `mapping/` namespace, the
`head` key and the advertisement blocks of the `blocks/` namespace. The entry
written last is the one a key resolves to. -/
structure MirrorStore where
  mapping : List (Cid × Cid)
  head : Option Cid
  blocks : List (Cid × Advertisement)
deriving DecidableEq

/-- The store of a mirror that has mirrored nothing. -/
def MirrorStore.empty : MirrorStore :=
  { mapping := [], head := none, blocks := [] }

/-- Modelled from the spec: steps 4b and 4c of a tick for one advertisement:
"Produce `M := C6.rewrite(S)`. Persist `M`'s blocks to C4; write `mapping/S → M`".
`cidOf` is the content address of an advertisement. -/
def promoteAd (hashing : Hashing) (o : options) (cidOf : Advertisement → Cid)
    (st : MirrorStore) (S : Advertisement) : Except Error MirrorStore :=
  match rewriteAd hashing o st.mapping S with
  | .error err => .error err
  | .ok M =>
    .ok { st with
      blocks := (cidOf M, M) :: st.blocks
      mapping := (cidOf S, cidOf M) :: st.mapping }

/-- Modelled from the spec: step 4 of a tick: "Walk the newly-fetched ads from
oldest to newest"; the list is oldest first. -/
def promoteAds (hashing : Hashing) (o : options) (cidOf : Advertisement → Cid) :
    List Advertisement → MirrorStore → Except Error MirrorStore
  | [], st => .ok st
  | S :: rest, st =>
    match promoteAd hashing o cidOf st S with
    | .error err => .error err
    | .ok st1 => promoteAds hashing o cidOf rest st1

/-- Modelled from the spec: steps 2 and 3 of a tick: the advertisements of the
source chain (oldest first) that the sync fetches: "if `head` is unset in C4, use
`initAdRecurLimit`; else stop at the last-known mirrored source ad". -/
def syncAds (o : options) (cidOf : Advertisement → Cid) (st : MirrorStore)
    (chain : List Advertisement) : List Advertisement :=
  match st.head with
  | none =>
    match o.initAdRecurLimit with
    | .none => chain
    | .depth n => chain.drop (chain.length - n.toNat)
  | some _ =>
    (chain.reverse.takeWhile fun ad => (st.mapping.lookup (cidOf ad)).isNone).reverse

/-- Modelled from the spec: one tick of the replication loop (§4.7) against the
source chain `chain` (oldest first). Without a source head, or when the source
head is the last recorded one, the tick is a no-op. -/
def tick (hashing : Hashing) (o : options) (cidOf : Advertisement → Cid)
    (chain : List Advertisement) (st : MirrorStore) : Except Error MirrorStore :=
  match chain.getLast? with
  | none => .ok st
  | some headAd =>
    if st.head = some (cidOf headAd) then .ok st
    else
      let fetched := syncAds o cidOf st chain
      let st1 : MirrorStore :=
        { st with blocks := (fetched.map fun ad => (cidOf ad, ad)) ++ st.blocks }
      match promoteAds hashing o cidOf fetched st1 with
      | .error err => .error err
      | .ok st2 => .ok { st2 with head := some (cidOf headAd) }

/-- Modelled from the spec: the head the mirror announces: the mirrored
counterpart of the last fully-mirrored source head. -/
def MirrorStore.mirrorHead (st : MirrorStore) : Option Cid :=
  match st.head with
  | none => none
  | some srcHead => st.mapping.lookup srcHead

/-- Modelled from the spec: the CDN property of a mirror store, "the mirror retains
source blocks alongside rewritten ones": for every mapping entry `S → M` the
store holds a block with content address `S` and a block with content address
`M`. -/
def MirrorStore.IsCdn (cidOf : Advertisement → Cid) (st : MirrorStore) : Prop :=
  ∀ source mirrored : Cid, (source, mirrored) ∈ st.mapping →
    (∃ S : Advertisement, (source, S) ∈ st.blocks ∧ cidOf S = source) ∧
      (∃ M : Advertisement, (mirrored, M) ∈ st.blocks ∧ cidOf M = mirrored)

/-- Modelled from the spec: an ad chain, oldest first: "a singly-linked list whose
tail is the genesis ad (`PreviousID = ∅`)"; every later advertisement links to
the content address of the one before it. `previous` is the link the first
advertisement of the list must carry. -/
def IsChain (cidOf : Advertisement → Cid) : Option Cid → List Advertisement → Prop
  | _, [] => True
  | previous, ad :: rest => ad.PreviousID = previous ∧ IsChain cidOf (some (cidOf ad)) rest

/-! ## Part 5. Definitions: concrete inputs -/

/-- A hashing machinery for concrete inputs: the slot at a depth is read off the
first byte of the multihash, and the digest provides eight levels. -/
def exampleHashing : Hashing :=
  { slot := fun _ bitWidth depth key => key.headD 0 / 2 ^ (bitWidth * depth)
    maxDepth := fun _ _ => 8 }

/-- A genesis advertisement of two multihashes in one chunk, signed by peer 1. -/
def examplePut : Advertisement :=
  { PreviousID := none
    Provider := "source"
    Addresses := ["/ip4/127.0.0.1/tcp/9999"]
    Signature :=
      { signer := 1
        payload :=
          { PreviousID := none
            Entries := Link.entryChunk (EntryChunk.mk [[1], [2]] none)
            Provider := "source"
            Addresses := ["/ip4/127.0.0.1/tcp/9999"]
            Metadata := [128, 18]
            IsRm := false } }
    Entries := Link.entryChunk (EntryChunk.mk [[1], [2]] none)
    ContextID := [102, 105, 115, 104]
    Metadata := [128, 18]
    IsRm := false }

/-- A genesis removal advertisement, with no entries, signed by peer 1. -/
def exampleRemoval : Advertisement :=
  { PreviousID := none
    Provider := "source"
    Addresses := ["/ip4/127.0.0.1/tcp/9999"]
    Signature :=
      { signer := 1
        payload :=
          { PreviousID := none
            Entries := Link.NoEntries
            Provider := "source"
            Addresses := ["/ip4/127.0.0.1/tcp/9999"]
            Metadata := [128, 18]
            IsRm := true } }
    Entries := Link.NoEntries
    ContextID := [102, 105, 115, 104]
    Metadata := [128, 18]
    IsRm := true }

/-- The options `newOptions` returns for no option but a host of identity 2. -/
def exampleDefaultOptions : options :=
  { initialOptions with h := some ⟨2⟩, ds := some Datastore.mapDatastore }

/-- The options `newOptions` returns for `WithEntryChunkRemapper(16)` and a host
of identity 2. -/
def exampleChainOptions : options :=
  { initialOptions with
    h := some ⟨2⟩
    ds := some Datastore.mapDatastore
    chunkerFunc := some (NewChunkerFunc.chain 16)
    entriesRemapPrototype := some TypedPrototype.EntryChunkPrototype }

/-- The options `newOptions` returns for `WithHamtRemapper(34, 3, 1)` and a host
of identity 2. -/
def exampleHamtOptions : options :=
  { initialOptions with
    h := some ⟨2⟩
    ds := some Datastore.mapDatastore
    chunkerFunc := some (NewChunkerFunc.hamt 34 3 1)
    entriesRemapPrototype := some TypedPrototype.HashMapRootPrototype }

/-- A content address for concrete inputs, read off the context ID. -/
def exampleCidOf (ad : Advertisement) : Cid :=
  ad.ContextID.headD 0

/-- A genesis advertisement whose chunk holds the same multihash twice, signed by
peer 1. -/
def exampleRepeated : Advertisement :=
  { PreviousID := none
    Provider := "source"
    Addresses := ["/ip4/127.0.0.1/tcp/9999"]
    Signature :=
      { signer := 1
        payload :=
          { PreviousID := none
            Entries := Link.entryChunk (EntryChunk.mk [[1], [1]] none)
            Provider := "source"
            Addresses := ["/ip4/127.0.0.1/tcp/9999"]
            Metadata := [128, 18]
            IsRm := false } }
    Entries := Link.entryChunk (EntryChunk.mk [[1], [1]] none)
    ContextID := [102, 105, 115, 104]
    Metadata := [128, 18]
    IsRm := false }

/-- A second advertisement, published after `examplePut`, which it links to. -/
def exampleSecond : Advertisement :=
  { PreviousID := some 102
    Provider := "source"
    Addresses := ["/ip4/127.0.0.1/tcp/9999"]
    Signature :=
      { signer := 1
        payload :=
          { PreviousID := some 102
            Entries := Link.NoEntries
            Provider := "source"
            Addresses := ["/ip4/127.0.0.1/tcp/9999"]
            Metadata := [128, 18]
            IsRm := true } }
    Entries := Link.NoEntries
    ContextID := [103]
    Metadata := [128, 18]
    IsRm := true }

/-- A source chain of two advertisements, oldest first. -/
def exampleChain : List Advertisement := [examplePut, exampleSecond]

/-! ## Part 5a. Definitions: the last option of a kind -/

/-- The argument of the last call in the list for which `sel` gives one; `none`
when there is no such call. -/
def lastArg {α : Type} (sel : OptionCall → Option α) : List OptionCall → Option α
  | [] => none
  | c :: rest =>
    match lastArg sel rest with
    | some a => some a
    | none => sel c

/-- The argument of a `WithDatastore` call. -/
def OptionCall.datastoreArg : OptionCall → Option (Option Datastore)
  | .datastore ds => some ds
  | _ => none

/-- The argument of a `WithHost` call. -/
def OptionCall.hostArg : OptionCall → Option (Option Host)
  | .host h => some h
  | _ => none

/-- The argument of a `WithSkipRemapOnEntriesTypeMatch` call. -/
def OptionCall.skipArg : OptionCall → Option Bool
  | .skipRemapOnEntriesTypeMatch s => some s
  | _ => none

/-- The argument of a `WithSyncInterval` call. -/
def OptionCall.syncIntervalArg : OptionCall → Option (Option Ticker)
  | .syncInterval t => some t
  | _ => none

/-- The argument of a `WithInitialAdRecursionLimit` call. -/
def OptionCall.initAdRecurLimitArg : OptionCall → Option RecursionLimit
  | .initialAdRecursionLimit l => some l
  | _ => none

/-- The argument of a `WithEntriesRecursionLimit` call. -/
def OptionCall.entriesRecurLimitArg : OptionCall → Option RecursionLimit
  | .entriesRecursionLimit l => some l
  | _ => none

/-- The argument of a `WithRemappedEntriesCacheCapacity` call. -/
def OptionCall.cacheCapArg : OptionCall → Option Int
  | .remappedEntriesCacheCapacity c => some c
  | _ => none

/-- The argument of a `WithPurgeCachedEntries` call. -/
def OptionCall.purgeArg : OptionCall → Option Bool
  | .purgeCachedEntries b => some b
  | _ => none

/-- The argument of a `WithTopicName` call. -/
def OptionCall.topicArg : OptionCall → Option String
  | .topicName t => some t
  | _ => none

/-- The argument of a `WithAlwaysReSignAds` call. -/
def OptionCall.alwaysReSignArg : OptionCall → Option Bool
  | .alwaysReSignAds r => some r
  | _ => none

/-- The options that "the last one wins" describes: every field is the argument
of the last call of its kind in the list, and the field of `d` when the list has
no call of that kind; the chunker func and the remap prototype are those of the
last remapper call. -/
def lastWins (l : List OptionCall) (d : options) : options :=
  { h := (lastArg OptionCall.hostArg l).getD d.h
    ds := (lastArg OptionCall.datastoreArg l).getD d.ds
    ticker := (lastArg OptionCall.syncIntervalArg l).getD d.ticker
    initAdRecurLimit := (lastArg OptionCall.initAdRecurLimitArg l).getD d.initAdRecurLimit
    entriesRecurLimit := (lastArg OptionCall.entriesRecurLimitArg l).getD d.entriesRecurLimit
    chunkerFunc := ((lastArg OptionCall.remap l).map fun r => some r.1).getD d.chunkerFunc
    chunkCacheCap := (lastArg OptionCall.cacheCapArg l).getD d.chunkCacheCap
    chunkCachePurge := (lastArg OptionCall.purgeArg l).getD d.chunkCachePurge
    topic := (lastArg OptionCall.topicArg l).getD d.topic
    skipRemapOnEntriesTypeMatch :=
      (lastArg OptionCall.skipArg l).getD d.skipRemapOnEntriesTypeMatch
    entriesRemapPrototype :=
      ((lastArg OptionCall.remap l).map fun r => some r.2).getD d.entriesRemapPrototype
    alwaysReSignAds := (lastArg OptionCall.alwaysReSignArg l).getD d.alwaysReSignAds }

/-- The kinds of option: one for each `With...` function of `options.go`. -/
inductive OptionKind where
  | datastore
  | host
  | entryChunkRemapper
  | hamtRemapper
  | skipRemapOnEntriesTypeMatch
  | syncInterval
  | initialAdRecursionLimit
  | entriesRecursionLimit
  | remappedEntriesCacheCapacity
  | purgeCachedEntries
  | topicName
  | alwaysReSignAds
deriving DecidableEq, Repr

/-- The kind of an option call: the `With...` function that is called. -/
def OptionCall.kind : OptionCall → OptionKind
  | .datastore _ => OptionKind.datastore
  | .host _ => OptionKind.host
  | .entryChunkRemapper _ => OptionKind.entryChunkRemapper
  | .hamtRemapper _ _ _ => OptionKind.hamtRemapper
  | .skipRemapOnEntriesTypeMatch _ => OptionKind.skipRemapOnEntriesTypeMatch
  | .syncInterval _ => OptionKind.syncInterval
  | .initialAdRecursionLimit _ => OptionKind.initialAdRecursionLimit
  | .entriesRecursionLimit _ => OptionKind.entriesRecursionLimit
  | .remappedEntriesCacheCapacity _ => OptionKind.remappedEntriesCacheCapacity
  | .purgeCachedEntries _ => OptionKind.purgeCachedEntries
  | .topicName _ => OptionKind.topicName
  | .alwaysReSignAds _ => OptionKind.alwaysReSignAds

/-- An option for concrete inputs that returns an error when the topic is empty. -/
def exampleRejectEmptyTopic : OptionFn :=
  fun o => if o.topic = "" then .error (Error.errorsNew "empty topic") else .ok o

/-! ## Part 5b. Definitions: the constructor of the mirror -/

/-- Modelled from the spec: the `peer.AddrInfo` of libp2p, the "sourceAddrInfo" the
constructor takes. -/
structure AddrInfo where
  ID : PeerID
  Addrs : List String
deriving DecidableEq, Repr

/-- Modelled from the spec: the handle the constructor returns, with the profile
it was built from. -/
structure Mirror where
  options : options
  source : AddrInfo
deriving DecidableEq

/-- Modelled from the spec: the constructor `mirror.New`, which is not among the
source files: "a single constructor taking `(sourceAddrInfo, options...)` and
returning a handle". It builds the configuration profile with `newOptions`;
`setUp` is the outcome of the rest of the construction (store, sync client,
chunker, publisher), `none` when it succeeds. -/
def New (libp2pNew : Except Error Host) (setUp : options → Option Error)
    (source : AddrInfo) (o : List OptionFn) : Except Error Mirror :=
  match newOptions libp2pNew o with
  | .error err => .error err
  | .ok opts =>
    match setUp opts with
    | some err => .error err
    | none => .ok { options := opts, source := source }

end mirror

/-! ## Part 5c. Definitions: `cmd/provider/mirror.go` -/

namespace provider

open mirror (Error Host Datastore OptionCall PeerID AddrInfo)

/-- Private key (`crypto.PrivKey`), an opaque value. -/
abbrev PrivKey := Nat

/-- The `libp2p.Option` values `beforeMirror` makes: `libp2p.Identity(pk)` and
`libp2p.ListenAddrStrings(listenAddrs...)`. -/
inductive HostOption where
  | Identity (pk : PrivKey)
  | ListenAddrStrings (listenAddrs : List String)
deriving DecidableEq, Repr

/-- The `cli.Context` as `beforeMirror` and `doMirror` read it: for every flag the
value it was set to, `none` when `cctx.IsSet` is false; the `source` flag is
required. `uint` values are natural numbers below `2 ^ 64`, a duration is a
number of nanoseconds. `Done` tells whether the context is cancelled at some
point. -/
structure Context where
  source : String
  syncInterval : Option Int
  identityPath : Option String
  listenAddrs : Option (List String)
  storePath : Option String
  initAdRecurLimit : Option Nat
  entriesRecurLimit : Option Nat
  remapWithEntryChunkSize : Option Nat
  remapWithHamtHashFunc : Option String
  remapWithHamtBitWidth : Option Nat
  remapWithHamtBucketSize : Option Nat
  topic : Option String
  skipRemapOnEntriesTypeMatch : Option Bool
  alwaysReSignAds : Option Bool
  Done : Bool
deriving DecidableEq, Repr

/-- The external collaborators of the command: address parsing, file reading, key
unmarshalling, `libp2p.New`, `leveldb.NewDatastore`, the table `multihash.Names`,
`logging.SetLogLevel`, and of the mirror the rest of its construction, `Start`
and `Shutdown`. A Go `error` result is `none` for `nil`. -/
structure Env where
  AddrInfoFromString : String → Except Error AddrInfo
  ReadFile : String → Except Error (List Nat)
  UnmarshalPrivateKey : List Nat → Except Error PrivKey
  libp2pNew : List HostOption → Except Error Host
  NewDatastore : String → Except Error Datastore
  Names : String → Option Nat
  SetLogLevel : String → String → Option Error
  setUp : mirror.options → Option Error
  Start : mirror.Mirror → Option Error
  Shutdown : mirror.Mirror → Option Error

/-- The type of the package-level variable `Mirror`, its command and flag
definitions aside: the source address and the options collected by
`beforeMirror`. -/
structure MirrorVar where
  source : Option AddrInfo
  options : List OptionCall
deriving DecidableEq

/-- The variable `Mirror` when the program starts. -/
def MirrorVar.init : MirrorVar :=
  { source := none, options := [] }

/-- How a function of the command ends: it returns an `error` (`none` for `nil`),
it panics, or it blocks forever. -/
inductive Exit where
  | returned (err : Option Error)
  | panicked (msg : String)
  | blocked
deriving DecidableEq

/-- Whether the function returned a non-nil error. -/
def Exit.isError : Exit → Bool
  | .returned (some _) => true
  | _ => false

/-- The outcome of a stretch of `beforeMirror`: control reaches the next
statement, or the function ends there; both with the value of `Mirror`. -/
inductive Flow where
  | next (Mirror : MirrorVar)
  | stop (Mirror : MirrorVar) (exit : Exit)
deriving DecidableEq

/-- The value of `Mirror` at the end of a stretch of code. -/
def Flow.state : Flow → MirrorVar
  | .next Mirror => Mirror
  | .stop Mirror _ => Mirror

/-- How the function ends after a last stretch of code: control that reaches the
end of the function returns `nil`. -/
def Flow.exit : Flow → Exit
  | .next _ => .returned none
  | .stop _ exit => exit

/-- Sequencing of two stretches of code. -/
def Flow.andThen (f : Flow) (g : MirrorVar → Flow) : Flow :=
  match f with
  | .next Mirror => g Mirror
  | .stop Mirror exit => .stop Mirror exit

/-- The Go conversions `int(u)` and `int64(u)` of a `uint` value, on a platform
with 64-bit `uint` and `int`. -/
def toInt (u : Nat) : Int :=
  if u % 2 ^ 64 < 2 ^ 63 then ((u % 2 ^ 64 : Nat) : Int)
  else ((u % 2 ^ 64 : Nat) : Int) - 2 ^ 64

/-- The statement `if cctx.IsSet(flag.Name) { Mirror.options = append(Mirror.options,
opt(flag.Get(cctx))) }`. -/
def appendIfSet {α : Type} (flag : Option α) (opt : α → OptionCall) (Mirror : MirrorVar) :
    MirrorVar :=
  match flag with
  | some v => { Mirror with options := Mirror.options ++ [opt v] }
  | none => Mirror

/-- Lines 141-145 of `beforeMirror`: the source address. -/
def beforeMirror.source (env : Env) (cctx : Context) (Mirror : MirrorVar) : Flow :=
  match env.AddrInfoFromString cctx.source with
  | .error err => .stop { Mirror with source := none } (.returned (some err))
  | .ok source => .next { Mirror with source := some source }

/-- Lines 146-149 of `beforeMirror`: the sync interval. `time.NewTicker` panics
when the duration is not positive. -/
def beforeMirror.syncInterval (cctx : Context) (Mirror : MirrorVar) : Flow :=
  match cctx.syncInterval with
  | some d =>
    if d ≤ 0 then .stop Mirror (.panicked "non-positive interval for NewTicker")
    else
      .next { Mirror with
        options := Mirror.options ++ [OptionCall.syncInterval (some (mirror.NewTicker d))] }
  | none => .next Mirror

/-- Lines 151-162 of `beforeMirror`: the host options made from the identity
file. -/
def beforeMirror.identity (env : Env) (cctx : Context) : Except Error (List HostOption) :=
  match cctx.identityPath with
  | some pkPath =>
    match env.ReadFile pkPath with
    | .error err => .error err
    | .ok pkBytes =>
      match env.UnmarshalPrivateKey pkBytes with
      | .error err => .error err
      | .ok pk => .ok [HostOption.Identity pk]
  | none => .ok []

/-- Lines 150-173 of `beforeMirror`: the host. -/
def beforeMirror.host (env : Env) (cctx : Context) (Mirror : MirrorVar) : Flow :=
  match beforeMirror.identity env cctx with
  | .error err => .stop Mirror (.returned (some err))
  | .ok identityOpts =>
    let hostOpts : List HostOption :=
      match cctx.listenAddrs with
      | some listenAddrs => identityOpts ++ [HostOption.ListenAddrStrings listenAddrs]
      | none => identityOpts
    if hostOpts.length ≠ 0 then
      match env.libp2pNew hostOpts with
      | .error err => .stop Mirror (.returned (some err))
      | .ok h => .next { Mirror with options := Mirror.options ++ [OptionCall.host (some h)] }
    else .next Mirror

/-- Lines 174-181 of `beforeMirror`: the datastore. -/
def beforeMirror.datastore (env : Env) (cctx : Context) (Mirror : MirrorVar) : Flow :=
  match cctx.storePath with
  | some path =>
    match env.NewDatastore path with
    | .error err => .stop Mirror (.returned (some err))
    | .ok ds => .next { Mirror with options := Mirror.options ++ [OptionCall.datastore (some ds)] }
  | none => .next Mirror

/-- Lines 182-189 of `beforeMirror`: the two recursion limits. -/
def beforeMirror.recurLimits (cctx : Context) (Mirror : MirrorVar) : Flow :=
  .next
    (appendIfSet cctx.entriesRecurLimit
      (fun l => OptionCall.entriesRecursionLimit (mirror.RecursionLimitDepth (toInt l)))
      (appendIfSet cctx.initAdRecurLimit
        (fun l => OptionCall.initialAdRecursionLimit (mirror.RecursionLimitDepth (toInt l)))
        Mirror))

/-- Lines 191-213 of `beforeMirror`: the entries remap flags. `flag.Get` of a flag
that is not set is the zero value of its type. -/
def beforeMirror.remap (env : Env) (cctx : Context) (Mirror : MirrorVar) : Flow :=
  let remapEC := cctx.remapWithEntryChunkSize.isSome
  let remapHamtHF := cctx.remapWithHamtHashFunc.isSome
  let remapHamtBW := cctx.remapWithHamtBitWidth.isSome
  let remapHamtBS := cctx.remapWithHamtBucketSize.isSome
  if remapEC && (remapHamtBS || remapHamtBW || remapHamtHF) then
    .stop Mirror (.returned (some (Error.errorsNew
      "only one entry remap kind can be specified; both EntryChunk and HAMT flags are set")))
  else if remapHamtBS != remapHamtBW || remapHamtBS != remapHamtHF then
    .stop Mirror (.returned (some (Error.errorsNew
      "to remap entries as HAMT all three of hash function, bit-width and bucket size flags must be set")))
  else if remapEC then
    let chunkSize := cctx.remapWithEntryChunkSize.getD 0
    .next { Mirror with
      options := Mirror.options ++ [OptionCall.entryChunkRemapper (toInt chunkSize)] }
  else if remapHamtBS && remapHamtBW && remapHamtHF then
    let hf := cctx.remapWithHamtHashFunc.getD ""
    let bw := cctx.remapWithHamtBitWidth.getD 0
    let bs := cctx.remapWithHamtBucketSize.getD 0
    match env.Names hf with
    | none =>
      .stop Mirror (.returned (some (Error.errorsNew
        ("no multihash code found with name: " ++ hf))))
    | some mhc =>
      .next { Mirror with
        options := Mirror.options ++ [OptionCall.hamtRemapper mhc (toInt bw) (toInt bs)] }
  else .next Mirror

/-- Lines 214-225 of `beforeMirror`: topic, skip flag and always-re-sign flag. -/
def beforeMirror.rest (cctx : Context) (Mirror : MirrorVar) : Flow :=
  .next
    (appendIfSet cctx.alwaysReSignAds OptionCall.alwaysReSignAds
      (appendIfSet cctx.skipRemapOnEntriesTypeMatch OptionCall.skipRemapOnEntriesTypeMatch
        (appendIfSet cctx.topic OptionCall.topicName Mirror)))

/-- The function `beforeMirror`: the value of `Mirror` when it ends, and how it
ends. -/
def beforeMirror (env : Env) (cctx : Context) (Mirror : MirrorVar) : MirrorVar × Exit :=
  match
    ((((((beforeMirror.source env cctx Mirror).andThen
      (beforeMirror.syncInterval cctx)).andThen
      (beforeMirror.host env cctx)).andThen
      (beforeMirror.datastore env cctx)).andThen
      (beforeMirror.recurLimits cctx)).andThen
      (beforeMirror.remap env cctx)).andThen
      (beforeMirror.rest cctx) with
  | .next Mirror1 => (Mirror1, .returned none)
  | .stop Mirror1 exit => (Mirror1, exit)

/-- The function `doMirror`. The mirror is constructed by `mirror.New` from the
source address and the collected options; `<-cctx.Done()` blocks until the
context is cancelled. -/
def doMirror (env : Env) (cctx : Context) (Mirror : MirrorVar) : Exit :=
  match env.SetLogLevel "provider/mirror" "info" with
  | some err => .returned (some err)
  | none =>
    match Mirror.source with
    | none => .panicked "invalid memory address or nil pointer dereference"
    | some source =>
      match mirror.New (env.libp2pNew []) env.setUp source
          (Mirror.options.map OptionCall.toOption) with
      | .error err => .returned (some err)
      | .ok m =>
        match env.Start m with
        | some err => .returned (some err)
        | none =>
          if cctx.Done = true then .returned (env.Shutdown m)
          else .blocked

/-- Whether the flag that `beforeMirror` makes the option from is set; a host
option is made from `identityPath` and `listenAddrs`, a HAMT remapper from the
three HAMT flags, and no flag makes a cache-capacity or a purge option. -/
def flagIsSet (cctx : Context) : OptionCall → Bool
  | .datastore _ => cctx.storePath.isSome
  | .host _ => cctx.identityPath.isSome || cctx.listenAddrs.isSome
  | .entryChunkRemapper _ => cctx.remapWithEntryChunkSize.isSome
  | .hamtRemapper _ _ _ =>
    cctx.remapWithHamtHashFunc.isSome && cctx.remapWithHamtBitWidth.isSome
      && cctx.remapWithHamtBucketSize.isSome
  | .skipRemapOnEntriesTypeMatch _ => cctx.skipRemapOnEntriesTypeMatch.isSome
  | .syncInterval _ => cctx.syncInterval.isSome
  | .initialAdRecursionLimit _ => cctx.initAdRecurLimit.isSome
  | .entriesRecursionLimit _ => cctx.entriesRecurLimit.isSome
  | .remappedEntriesCacheCapacity _ => false
  | .purgeCachedEntries _ => false
  | .topicName _ => cctx.topic.isSome
  | .alwaysReSignAds _ => cctx.alwaysReSignAds.isSome

/-- The remap flags that are rejected, in the words of the flag validation: (a) the
EntryChunk size flag is set together with at least one of the three HAMT flags,
or (b) some but not all of the three HAMT flags are set, or (c) all three HAMT
flags are set and the hash function name is not a known multihash name. -/
def invalidRemapFlags (env : Env) (cctx : Context) : Bool :=
  let someHamt := cctx.remapWithHamtHashFunc.isSome || cctx.remapWithHamtBitWidth.isSome
    || cctx.remapWithHamtBucketSize.isSome
  let allHamt := cctx.remapWithHamtHashFunc.isSome && cctx.remapWithHamtBitWidth.isSome
    && cctx.remapWithHamtBucketSize.isSome
  (cctx.remapWithEntryChunkSize.isSome && someHamt)
    || (someHamt && !allHamt)
    || (allHamt && (env.Names (cctx.remapWithHamtHashFunc.getD "")).isNone)

/-- A command line with the required `source` flag only. -/
def onlySource (source : String) (done : Bool) : Context :=
  { source := source
    syncInterval := none
    identityPath := none
    listenAddrs := none
    storePath := none
    initAdRecurLimit := none
    entriesRecurLimit := none
    remapWithEntryChunkSize := none
    remapWithHamtHashFunc := none
    remapWithHamtBitWidth := none
    remapWithHamtBucketSize := none
    topic := none
    skipRemapOnEntriesTypeMatch := none
    alwaysReSignAds := none
    Done := done }

/-- The `DefaultText` that `init` gives the `topic` flag. -/
def topicDefaultText : String := "`/indexer/ingest/mainnet`"

/-- A command line with the required `source` flag only, and a context that is
cancelled. -/
def exampleContext : Context :=
  { source := "/ip4/127.0.0.1/tcp/9999/p2p/source"
    syncInterval := none
    identityPath := none
    listenAddrs := none
    storePath := none
    initAdRecurLimit := none
    entriesRecurLimit := none
    remapWithEntryChunkSize := none
    remapWithHamtHashFunc := none
    remapWithHamtBitWidth := none
    remapWithHamtBucketSize := none
    topic := none
    skipRemapOnEntriesTypeMatch := none
    alwaysReSignAds := none
    Done := true }

/-- Collaborators for concrete inputs: every address parses to peer 1, every host
is peer 2, the three hash functions the usage text names are known, and nothing
fails. -/
def exampleEnv : Env :=
  { AddrInfoFromString := fun s => .ok { ID := 1, Addrs := [s] }
    ReadFile := fun _ => .ok [8, 1]
    UnmarshalPrivateKey := fun _ => .ok 42
    libp2pNew := fun _ => .ok ⟨2⟩
    NewDatastore := fun _ => .ok (Datastore.external 1)
    Names := fun name =>
      if name = "identity" then some 0
      else if name = "sha2-256" then some 18
      else if name = "murmur3-x64-64" then some 34
      else none
    SetLogLevel := fun _ _ => none
    setUp := fun _ => none
    Start := fun _ => none
    Shutdown := fun _ => none }

/-- A command line that sets the EntryChunk size flag and one HAMT flag. -/
def exampleInvalidContext : Context :=
  { exampleContext with remapWithEntryChunkSize := some 16, remapWithHamtBitWidth := some 3 }

/-- The command line `--syncInterval 0s --remapWithEntryChunkSize 16
--remapWithHamtBitWidth 3`: the flags of `exampleInvalidContext` and a sync
interval of zero. -/
def exampleZeroIntervalContext : Context :=
  { exampleInvalidContext with syncInterval := some 0 }

/-- A command line that sets a topic and the three HAMT flags. -/
def exampleHamtContext : Context :=
  { exampleContext with
    topic := some "/indexer/ingest/testnet"
    remapWithHamtHashFunc := some "murmur3-x64-64"
    remapWithHamtBitWidth := some 3
    remapWithHamtBucketSize := some 1 }

/-- Collaborators for concrete inputs with a mirror whose `Shutdown` fails. -/
def exampleShutdownFails : Env :=
  { exampleEnv with Shutdown := fun _ => some (Error.errorsNew "shutdown failed") }

end provider

namespace mirror

/-! ## Part 6. Lemmas on `newOptions` -/

theorem toOption_ok (c : OptionCall) (o : options) : ∃ o1, c.toOption o = .ok o1 := by
  cases c <;> exact ⟨_, rfl⟩

theorem applyAll_calls_ok (l : List OptionCall) :
    ∀ o0 : options, ∃ o, applyAll (l.map OptionCall.toOption) o0 = .ok o := by
  induction l with
  | nil => intro o0; exact ⟨o0, rfl⟩
  | cons c rest ih =>
    intro o0
    obtain ⟨o1, h1⟩ := toOption_ok c o0
    obtain ⟨o2, h2⟩ := ih o1
    exact ⟨o2, by simp [applyAll, h1, h2]⟩

theorem toOption_remap (c : OptionCall) (o o1 : options) (h : c.toOption o = .ok o1) :
    (o1.chunkerFunc, o1.entriesRemapPrototype) =
      match c.remap with
      | some r => (some r.1, some r.2)
      | none => (o.chunkerFunc, o.entriesRemapPrototype) := by
  cases c <;>
    simp only [OptionCall.toOption, WithDatastore, WithHost, WithEntryChunkRemapper,
      WithHamtRemapper, WithSkipRemapOnEntriesTypeMatch, WithSyncInterval,
      WithInitialAdRecursionLimit, WithEntriesRecursionLimit, WithRemappedEntriesCacheCapacity,
      WithPurgeCachedEntries, WithTopicName, WithAlwaysReSignAds, Except.ok.injEq] at h <;>
    subst h <;> rfl

theorem applyAll_calls_remap (l : List OptionCall) :
    ∀ o0 o : options, applyAll (l.map OptionCall.toOption) o0 = .ok o →
      (o.chunkerFunc, o.entriesRemapPrototype) =
        match lastRemapper l with
        | some r => (some r.1, some r.2)
        | none => (o0.chunkerFunc, o0.entriesRemapPrototype) := by
  induction l with
  | nil =>
    intro o0 o h
    simp only [List.map_nil, applyAll, Except.ok.injEq] at h
    subst h; rfl
  | cons c rest ih =>
    intro o0 o h
    obtain ⟨o1, h1⟩ := toOption_ok c o0
    simp only [List.map_cons, applyAll, h1] at h
    have h2 := ih o1 o h
    have h3 := toOption_remap c o0 o1 h1
    rw [h2]
    simp only [lastRemapper]
    cases hr : lastRemapper rest with
    | some r => rfl
    | none =>
      simp only []
      rw [h3]

theorem lastRemapper_isSome (l : List OptionCall) :
    (lastRemapper l).isSome = true ↔ ∃ c ∈ l, c.isRemapper = true := by
  induction l with
  | nil => simp [lastRemapper]
  | cons c rest ih =>
    simp only [lastRemapper, List.mem_cons, exists_eq_or_imp]
    cases hr : lastRemapper rest with
    | some r =>
      have : ∃ c ∈ rest, c.isRemapper = true := ih.mp (by simp [hr])
      simp [this]
    | none =>
      have hn : ¬ ∃ c ∈ rest, c.isRemapper = true := by
        intro hex
        have := ih.mpr hex
        simp [hr] at this
      simp only [hn, or_false]
      cases c <;> simp [OptionCall.remap, OptionCall.isRemapper]

theorem newOptions_calls_remap (libp2pNew : Except Error Host) (l : List OptionCall)
    (o : options) (h : newOptions libp2pNew (l.map OptionCall.toOption) = .ok o) :
    (o.chunkerFunc, o.entriesRemapPrototype) =
      match lastRemapper l with
      | some r => (some r.1, some r.2)
      | none => (none, none) := by
  obtain ⟨o1, h1⟩ := applyAll_calls_ok l initialOptions
  have h2 := applyAll_calls_remap l initialOptions o1 h1
  have h3 : (o.chunkerFunc, o.entriesRemapPrototype)
      = (o1.chunkerFunc, o1.entriesRemapPrototype) := by
    simp only [newOptions, h1] at h
    cases hN : libp2pNew with
    | error e =>
      by_cases hh : o1.h = none <;> by_cases hd : o1.ds = none <;>
        simp [hN, hh, hd] at h <;> subst h <;> rfl
    | ok hst =>
      by_cases hh : o1.h = none <;> by_cases hd : o1.ds = none <;>
        simp [hN, hh, hd] at h <;> subst h <;> rfl
  rw [h3, h2]
  rfl

theorem newOptions_calls_ok (hst : Host) (l : List OptionCall) :
    ∃ o, newOptions (.ok hst) (l.map OptionCall.toOption) = .ok o := by
  obtain ⟨o1, h1⟩ := applyAll_calls_ok l initialOptions
  simp only [newOptions, h1]
  by_cases hh : o1.h = none <;> by_cases hd : o1.ds = none <;> simp [hh, hd]

/-! ## Part 7. The configuration profile: defaults and remapper options -/

/-- C8. Defaults: `newOptions` applied to the empty option list (the host being
the one `libp2p.New()` returns) yields topic "/indexer/ingest/mainnet",
remapped-entries cache capacity 1024, purge-cached-entries false, a ticker of
10 minutes (600000000000 ns), both recursion limits `RecursionLimitNone`,
skipRemapOnEntriesTypeMatch false and alwaysReSignAds false. -/
theorem newOptions_defaults (hst : Host) :
    ∃ o : options, newOptions (.ok hst) [] = .ok o ∧
      o.topic = "/indexer/ingest/mainnet" ∧
      o.chunkCacheCap = 1024 ∧
      o.chunkCachePurge = false ∧
      o.ticker = some (NewTicker 600000000000) ∧
      o.initAdRecurLimit = RecursionLimitNone ∧
      o.entriesRecurLimit = RecursionLimitNone ∧
      o.skipRemapOnEntriesTypeMatch = false ∧
      o.alwaysReSignAds = false :=
  ⟨{ initialOptions with h := some hst, ds := some Datastore.mapDatastore }, rfl, rfl, rfl, rfl,
    rfl, rfl, rfl, rfl, rfl⟩

/-- C9. Remapping is enabled exactly when a remapper was configured: for every
list of option calls on which `newOptions` succeeds, `remapEntriesEnabled` is
true if and only if the list contains a `WithEntryChunkRemapper` or a
`WithHamtRemapper` call. -/
theorem remapEntriesEnabled_iff_remapper (libp2pNew : Except Error Host)
    (l : List OptionCall) (o : options)
    (h : newOptions libp2pNew (l.map OptionCall.toOption) = .ok o) :
    o.remapEntriesEnabled = true ↔ ∃ c ∈ l, c.isRemapper = true := by
  have h1 := newOptions_calls_remap libp2pNew l o h
  rw [← lastRemapper_isSome]
  cases hr : lastRemapper l with
  | some r =>
    rw [hr] at h1
    simp only [Prod.mk.injEq] at h1
    simp [options.remapEntriesEnabled, h1.1]
  | none =>
    rw [hr] at h1
    simp only [Prod.mk.injEq] at h1
    simp [options.remapEntriesEnabled, h1.1]

/-- Witness of C9: a list with a topic, a HAMT remapper and a purge option. -/
theorem remapEntriesEnabled_iff_remapper_witness :
    newOptions (.ok ⟨7⟩)
        ([OptionCall.topicName "t", OptionCall.hamtRemapper 34 3 1,
          OptionCall.purgeCachedEntries true].map OptionCall.toOption) =
      .ok { initialOptions with
          h := some ⟨7⟩
          ds := some Datastore.mapDatastore
          topic := "t"
          chunkCachePurge := true
          chunkerFunc := some (NewChunkerFunc.hamt 34 3 1)
          entriesRemapPrototype := some TypedPrototype.HashMapRootPrototype } ∧
    (options.remapEntriesEnabled
        { initialOptions with
          h := some ⟨7⟩
          ds := some Datastore.mapDatastore
          topic := "t"
          chunkCachePurge := true
          chunkerFunc := some (NewChunkerFunc.hamt 34 3 1)
          entriesRemapPrototype := some TypedPrototype.HashMapRootPrototype } = true ↔
      ∃ c ∈ [OptionCall.topicName "t", OptionCall.hamtRemapper 34 3 1,
          OptionCall.purgeCachedEntries true], c.isRemapper = true) :=
  ⟨rfl, remapEntriesEnabled_iff_remapper (.ok ⟨7⟩)
    [OptionCall.topicName "t", OptionCall.hamtRemapper 34 3 1,
      OptionCall.purgeCachedEntries true] _ rfl⟩

/-- C10, counterexample. `newOptions` on a list with both an EntryChunk remapper
and a HAMT remapper returns options and no error. -/
theorem newOptions_both_remappers_counterexample :
    newOptions (.ok ⟨7⟩) [WithEntryChunkRemapper 16, WithHamtRemapper 34 3 1] =
      .ok { initialOptions with
        h := some ⟨7⟩
        ds := some Datastore.mapDatastore
        chunkerFunc := some (NewChunkerFunc.hamt 34 3 1)
        entriesRemapPrototype := some TypedPrototype.HashMapRootPrototype } := by
  rfl

/-- C10, amended. For every list of option calls that contains both a
`WithEntryChunkRemapper` and a `WithHamtRemapper` call, `newOptions` (the host
being given or returned by `libp2p.New()`) returns options and no error;
remapping is enabled, and the chunker func and the remap prototype are those
of the remapper call that comes last in the list. -/
theorem newOptions_both_remappers (hst : Host) (l : List OptionCall)
    (hEC : ∃ c ∈ l, c.isEntryChunkRemapper = true)
    (_hHamt : ∃ c ∈ l, c.isHamtRemapper = true) :
    ∃ (o : options) (r : NewChunkerFunc × TypedPrototype),
      newOptions (.ok hst) (l.map OptionCall.toOption) = .ok o ∧
      lastRemapper l = some r ∧
      o.remapEntriesEnabled = true ∧
      o.chunkerFunc = some r.1 ∧ o.entriesRemapPrototype = some r.2 := by
  obtain ⟨o, ho⟩ := newOptions_calls_ok hst l
  have h1 := newOptions_calls_remap (.ok hst) l o ho
  have h2 : (lastRemapper l).isSome = true := by
    rw [lastRemapper_isSome]
    obtain ⟨c, hc, hc2⟩ := hEC
    refine ⟨c, hc, ?_⟩
    cases c <;> simp_all [OptionCall.isRemapper, OptionCall.isEntryChunkRemapper]
  cases hr : lastRemapper l with
  | none => simp [hr] at h2
  | some r =>
    rw [hr] at h1
    simp only [Prod.mk.injEq] at h1
    exact ⟨o, r, ho, rfl, by simp [options.remapEntriesEnabled, h1.1], h1.1, h1.2⟩

/-- Witness of C10, amended: an EntryChunk remapper followed by a HAMT remapper. -/
theorem newOptions_both_remappers_witness :
    ∃ (o : options) (r : NewChunkerFunc × TypedPrototype),
      newOptions (.ok ⟨7⟩)
        ([OptionCall.entryChunkRemapper 16, OptionCall.hamtRemapper 34 3 1].map
          OptionCall.toOption) = .ok o ∧
      lastRemapper [OptionCall.entryChunkRemapper 16, OptionCall.hamtRemapper 34 3 1] = some r ∧
      o.remapEntriesEnabled = true ∧
      o.chunkerFunc = some r.1 ∧ o.entriesRemapPrototype = some r.2 :=
  newOptions_both_remappers ⟨7⟩ [OptionCall.entryChunkRemapper 16, OptionCall.hamtRemapper 34 3 1]
    ⟨_, List.mem_cons_self _ _, rfl⟩
    ⟨_, List.mem_cons_of_mem _ (List.mem_cons_self _ _), rfl⟩

/-! ## Part 8. Lemmas on the ad rewriter -/

theorem rewriteAd_ok (hashing : Hashing) (o : options) (mapping : List (Cid × Cid))
    (S M : Advertisement) (h : rewriteAd hashing o mapping S = .ok M) :
    ∃ entries : Link, remapEntries hashing o S.Entries = .ok entries ∧
      (((rewritePreviousID mapping S.PreviousID ≠ S.PreviousID ∨ entries ≠ S.Entries
            ∨ o.alwaysReSignAds = true) ∧
          ∃ hst : Host, o.h = some hst ∧
            M = Advertisement.Sign
              { S with PreviousID := rewritePreviousID mapping S.PreviousID, Entries := entries }
              hst.ID) ∨
        (¬ (rewritePreviousID mapping S.PreviousID ≠ S.PreviousID ∨ entries ≠ S.Entries
            ∨ o.alwaysReSignAds = true) ∧
          M = { S with PreviousID := rewritePreviousID mapping S.PreviousID,
                       Entries := entries })) := by
  unfold rewriteAd at h
  cases hr : remapEntries hashing o S.Entries with
  | error e => simp [hr] at h
  | ok entries =>
    refine ⟨entries, rfl, ?_⟩
    simp only [hr] at h
    by_cases hc : rewritePreviousID mapping S.PreviousID ≠ S.PreviousID ∨ entries ≠ S.Entries
        ∨ o.alwaysReSignAds = true
    · rw [if_pos hc] at h
      cases hh : o.h with
      | none => simp [hh] at h
      | some hst =>
        simp only [hh, Except.ok.injEq] at h
        exact Or.inl ⟨hc, hst, rfl, h.symm⟩
    · rw [if_neg hc] at h
      simp only [Except.ok.injEq] at h
      exact Or.inr ⟨hc, h.symm⟩

theorem rewriteAd_fields (hashing : Hashing) (o : options) (mapping : List (Cid × Cid))
    (S M : Advertisement) (h : rewriteAd hashing o mapping S = .ok M) :
    M.PreviousID = rewritePreviousID mapping S.PreviousID ∧
      remapEntries hashing o S.Entries = .ok M.Entries ∧
      M.IsRm = S.IsRm ∧ M.Provider = S.Provider ∧ M.Addresses = S.Addresses ∧
      M.Metadata = S.Metadata ∧ M.ContextID = S.ContextID := by
  obtain ⟨entries, he, hcase⟩ := rewriteAd_ok hashing o mapping S M h
  rcases hcase with ⟨_, hst, _, hM⟩ | ⟨_, hM⟩ <;> subst hM <;>
    exact ⟨rfl, he, rfl, rfl, rfl, rfl, rfl⟩

theorem remapEntries_NoEntries (hashing : Hashing) (o : options) :
    remapEntries hashing o Link.NoEntries = .ok Link.NoEntries := by
  simp [remapEntries]

theorem remapEntries_unset (hashing : Hashing) (o : options) (entries : Link)
    (h : o.chunkerFunc = none) : remapEntries hashing o entries = .ok entries := by
  unfold remapEntries
  by_cases he : entries = Link.NoEntries
  · simp [he]
  · simp [he, h]

theorem remapEntries_skip (hashing : Hashing) (o : options) (entries : Link)
    (h : skipRemap o entries = true) : remapEntries hashing o entries = .ok entries := by
  unfold remapEntries
  by_cases he : entries = Link.NoEntries
  · simp [he]
  · cases hc : o.chunkerFunc with
    | none => simp [he]
    | some f => simp [he, h]

theorem remapEntries_entryChunk (hashing : Hashing) (o : options) (root : EntryChunk)
    (f : NewChunkerFunc) (hf : o.chunkerFunc = some f)
    (hs : skipRemap o (Link.entryChunk root) = false) :
    remapEntries hashing o (Link.entryChunk root) = f.Chunk hashing root.mhs := by
  simp [remapEntries, hf, hs]

theorem remapEntries_hamt (hashing : Hashing) (o : options) (root : HashMapRoot)
    (f : NewChunkerFunc) (hf : o.chunkerFunc = some f)
    (hs : skipRemap o (Link.hamt root) = false) :
    remapEntries hashing o (Link.hamt root) = f.Chunk hashing root.hamt.keys := by
  simp [remapEntries, hf, hs]

theorem remapEntries_unknown (hashing : Hashing) (o : options) (cid : Nat)
    (f : NewChunkerFunc) (hf : o.chunkerFunc = some f)
    (hs : skipRemap o (Link.unknown cid) = false) :
    remapEntries hashing o (Link.unknown cid) = .error Error.ErrBadEntriesKind := by
  simp [remapEntries, hf, hs]

theorem verifySignature_sign (ad : Advertisement) (signer : PeerID) :
    (ad.Sign signer).VerifySignature = .ok signer := by
  simp [Advertisement.VerifySignature, Advertisement.Sign, Advertisement.signaturePayload]

/-! ## Part 9. The ad rewriter: signer, structure, previous link, entries link -/

/-- C1. Signer dichotomy: for a source advertisement `S` that verifies against the
source identity, and its mirrored advertisement `M` made by a mirror of another
identity, `M` verifies against the source identity if and only if
`M.PreviousID = S.PreviousID`, `M.Entries = S.Entries` and `alwaysReSignAds` is
false; in every other case `M` verifies against the mirror identity. This is the
signer `requireAdMirrored` requires. -/
theorem signer_dichotomy (hashing : Hashing) (o : options) (mapping : List (Cid × Cid))
    (S M : Advertisement) (hst : Host) (sourceID : PeerID)
    (hHost : o.h = some hst)
    (hSource : S.VerifySignature = .ok sourceID)
    (hNe : sourceID ≠ hst.ID)
    (hM : rewriteAd hashing o mapping S = .ok M) :
    (M.VerifySignature = .ok sourceID ↔
        (M.PreviousID = S.PreviousID ∧ M.Entries = S.Entries ∧ o.alwaysReSignAds = false)) ∧
      (¬ (M.PreviousID = S.PreviousID ∧ M.Entries = S.Entries ∧ o.alwaysReSignAds = false) →
        M.VerifySignature = .ok hst.ID) ∧
      M.VerifySignature = .ok (wantSigner o.alwaysReSignAds sourceID hst.ID S M) := by
  obtain ⟨entries, _, hcase⟩ := rewriteAd_ok hashing o mapping S M hM
  rcases hcase with ⟨hc, hst1, hh, hMeq⟩ | ⟨hc, hMeq⟩
  · have hhst : hst1 = hst := by
      rw [hHost] at hh
      exact (Option.some.inj hh).symm
    subst hhst
    have hv : M.VerifySignature = .ok hst1.ID := by
      rw [hMeq]; exact verifySignature_sign _ _
    have hP : M.PreviousID = rewritePreviousID mapping S.PreviousID := by rw [hMeq]; rfl
    have hE : M.Entries = entries := by rw [hMeq]; rfl
    have hnot : ¬ (M.PreviousID = S.PreviousID ∧ M.Entries = S.Entries
        ∧ o.alwaysReSignAds = false) := by
      rintro ⟨h1, h2, h3⟩
      rw [hP] at h1
      rw [hE] at h2
      rcases hc with hc | hc | hc
      · exact hc h1
      · exact hc h2
      · rw [h3] at hc; exact Bool.noConfusion hc
    refine ⟨?_, fun _ => hv, ?_⟩
    · constructor
      · intro h1
        rw [hv] at h1
        exact absurd (Except.ok.inj h1).symm hNe
      · intro h1
        exact absurd h1 hnot
    · rw [hv]
      have hw : wantSigner o.alwaysReSignAds sourceID hst1.ID S M = hst1.ID := by
        unfold wantSigner
        rw [if_pos]
        by_contra hcon
        apply hnot
        simp only [not_or, ne_eq, not_not, Bool.not_eq_true] at hcon
        exact ⟨hcon.2.2.symm, hcon.2.1.symm, hcon.1⟩
      rw [hw]
  · simp only [not_or, ne_eq, not_not, Bool.not_eq_true] at hc
    obtain ⟨hc1, hc2, hc3⟩ := hc
    have hMS : M = S := by
      rw [hMeq, hc1, hc2]
    subst hMS
    refine ⟨?_, ?_, ?_⟩
    · constructor
      · intro _
        exact ⟨rfl, rfl, hc3⟩
      · intro _
        exact hSource
    · intro hn
      exact absurd ⟨rfl, rfl, hc3⟩ hn
    · rw [hSource]
      simp [wantSigner, hc3]

/-- Witness of C1: a genesis advertisement mirrored under the default options is
verified against the source identity. -/
theorem signer_dichotomy_witness :
    exampleDefaultOptions.h = some ⟨2⟩ ∧
    examplePut.VerifySignature = .ok 1 ∧
    (1 : PeerID) ≠ (⟨2⟩ : Host).ID ∧
    rewriteAd exampleHashing exampleDefaultOptions [] examplePut = .ok examplePut ∧
    ((examplePut.VerifySignature = .ok 1 ↔
        (examplePut.PreviousID = examplePut.PreviousID ∧ examplePut.Entries = examplePut.Entries
          ∧ exampleDefaultOptions.alwaysReSignAds = false)) ∧
      (¬ (examplePut.PreviousID = examplePut.PreviousID ∧ examplePut.Entries = examplePut.Entries
          ∧ exampleDefaultOptions.alwaysReSignAds = false) →
        examplePut.VerifySignature = .ok (⟨2⟩ : Host).ID) ∧
      examplePut.VerifySignature =
        .ok (wantSigner exampleDefaultOptions.alwaysReSignAds 1 (⟨2⟩ : Host).ID
          examplePut examplePut)) :=
  ⟨rfl, by decide, by decide, by decide,
    signer_dichotomy exampleHashing exampleDefaultOptions [] examplePut examplePut ⟨2⟩ 1
      rfl (by decide) (by decide) (by decide)⟩

/-- C2. Structural mirroring: for every source advertisement `S` and its mirrored
advertisement `M`, under every configuration, the fields IsRm, Provider,
Addresses, Metadata and ContextID of `M` are those of `S`; `M` differs from `S`
at most in PreviousID, Entries and Signature. -/
theorem structural_mirroring (hashing : Hashing) (o : options) (mapping : List (Cid × Cid))
    (S M : Advertisement) (hM : rewriteAd hashing o mapping S = .ok M) :
    (S.IsRm, S.Provider, S.Addresses, S.Metadata, S.ContextID) =
        (M.IsRm, M.Provider, M.Addresses, M.Metadata, M.ContextID) ∧
      M = { S with PreviousID := M.PreviousID, Entries := M.Entries,
                   Signature := M.Signature } := by
  obtain ⟨_, _, h1, h2, h3, h4, h5⟩ := rewriteAd_fields hashing o mapping S M hM
  refine ⟨by rw [h1, h2, h3, h4, h5], ?_⟩
  cases M
  simp only [Advertisement.mk.injEq] at *
  simp_all

/-- Witness of C2: a genesis advertisement remapped to a HAMT and re-signed. -/
theorem structural_mirroring_witness :
    rewriteAd exampleHashing exampleHamtOptions [] examplePut =
        .ok (Advertisement.Sign
          { examplePut with
            Entries := Link.hamt (hamtChunk exampleHashing 34 3 1 [[1], [2]]) } 2) ∧
      ((examplePut.IsRm, examplePut.Provider, examplePut.Addresses, examplePut.Metadata,
          examplePut.ContextID) =
        (false, "source", ["/ip4/127.0.0.1/tcp/9999"], [128, 18], [102, 105, 115, 104])) :=
  ⟨by decide,
    (structural_mirroring exampleHashing exampleHamtOptions [] examplePut
      (Advertisement.Sign
          { examplePut with
            Entries := Link.hamt (hamtChunk exampleHashing 34 3 1 [[1], [2]]) } 2)
      (by decide)).1⟩

/-- C5. Previous-link rewrite: for every source advertisement `S` and its mirrored
advertisement `M`, `M.PreviousID` is nil when `S.PreviousID` is absent, is the
mapped mirror link when the mirror holds a mapping for `S.PreviousID`, and is
`S.PreviousID` itself when `S.PreviousID` exists and the mirror holds no mapping
for it. -/
theorem previous_link_rewrite (hashing : Hashing) (o : options) (mapping : List (Cid × Cid))
    (S M : Advertisement) (hM : rewriteAd hashing o mapping S = .ok M) :
    (S.PreviousID = none → M.PreviousID = none) ∧
      (∀ previous mirrored : Cid, S.PreviousID = some previous →
        mapping.lookup previous = some mirrored → M.PreviousID = some mirrored) ∧
      (∀ previous : Cid, S.PreviousID = some previous →
        mapping.lookup previous = none → M.PreviousID = S.PreviousID) := by
  obtain ⟨h0, _⟩ := rewriteAd_fields hashing o mapping S M hM
  rw [h0]
  refine ⟨?_, ?_, ?_⟩
  · intro h; rw [h]; rfl
  · intro previous mirrored h hl; rw [h]; simp [rewritePreviousID, hl]
  · intro previous h hl; rw [h]; simp [rewritePreviousID, hl]

/-- Witness of C5: an advertisement whose previous advertisement 5 is mapped to 6
by the mirror links to 6 once mirrored. -/
theorem previous_link_rewrite_witness :
    rewriteAd exampleHashing exampleDefaultOptions [(5, 6)]
        { examplePut with PreviousID := some 5 } =
      .ok (Advertisement.Sign { examplePut with PreviousID := some 6 } 2) ∧
    (((some 5 : Option Cid) = none → (some 6 : Option Cid) = none) ∧
      (∀ previous mirrored : Cid, (some 5 : Option Cid) = some previous →
        List.lookup previous [((5 : Cid), (6 : Cid))] = some mirrored →
        (some 6 : Option Cid) = some mirrored) ∧
      (∀ previous : Cid, (some 5 : Option Cid) = some previous →
        List.lookup previous [((5 : Cid), (6 : Cid))] = none →
        (some 6 : Option Cid) = some 5)) :=
  ⟨by decide,
    previous_link_rewrite exampleHashing exampleDefaultOptions [(5, 6)]
      { examplePut with PreviousID := some 5 }
      (Advertisement.Sign { examplePut with PreviousID := some 6 } 2) (by decide)⟩

/-- C6, counterexample. A removal advertisement mirrored with an EntryChunk
remapper configured and the skip flag off keeps its entries link, although
remapping is enabled and the skip-on-type-match rule does not fire. -/
theorem entries_unchanged_iff_counterexample :
    newOptions (.ok ⟨2⟩) [WithEntryChunkRemapper 16] = .ok exampleChainOptions ∧
    rewriteAd exampleHashing exampleChainOptions [] exampleRemoval = .ok exampleRemoval ∧
    ¬ (exampleRemoval.Entries = exampleRemoval.Entries ↔
        (exampleChainOptions.remapEntriesEnabled = false ∨
          (exampleChainOptions.skipRemapOnEntriesTypeMatch = true ∧
            exampleChainOptions.entriesRemapPrototype.map TypedPrototype.kind =
              some exampleRemoval.Entries.kind))) := by
  decide

/-- C6, amended. For every mirrored advertisement `M` of a source advertisement
`S`, `M.Entries = S.Entries` if remapping is disabled, or the skip-on-type-match
rule fires, or `S.Entries` is `NoEntries`; in every other case `M.Entries` is the
root the configured chunker yields for the multihashes behind `S.Entries`. -/
theorem entries_unchanged_if (hashing : Hashing) (o : options) (mapping : List (Cid × Cid))
    (S M : Advertisement) (hM : rewriteAd hashing o mapping S = .ok M) :
    ((o.remapEntriesEnabled = false ∨
        (o.skipRemapOnEntriesTypeMatch = true ∧
          o.entriesRemapPrototype.map TypedPrototype.kind = some S.Entries.kind) ∨
        S.Entries = Link.NoEntries) → M.Entries = S.Entries) ∧
      (¬ (o.remapEntriesEnabled = false ∨
        (o.skipRemapOnEntriesTypeMatch = true ∧
          o.entriesRemapPrototype.map TypedPrototype.kind = some S.Entries.kind) ∨
        S.Entries = Link.NoEntries) →
        ∃ chunkerFunc : NewChunkerFunc, o.chunkerFunc = some chunkerFunc ∧
          chunkerFunc.Chunk hashing S.Entries.mh = .ok M.Entries) := by
  obtain ⟨_, hE, _⟩ := rewriteAd_fields hashing o mapping S M hM
  have hskip : skipRemap o S.Entries = true ↔
      (o.skipRemapOnEntriesTypeMatch = true ∧
        o.entriesRemapPrototype.map TypedPrototype.kind = some S.Entries.kind) := by
    simp [skipRemap]
  rw [← hskip]
  constructor
  · rintro (h | h | h)
    · have hc : o.chunkerFunc = none := by
        simpa [options.remapEntriesEnabled] using h
      rw [remapEntries_unset hashing o _ hc] at hE
      exact (Except.ok.inj hE).symm
    · rw [remapEntries_skip hashing o _ h] at hE
      exact (Except.ok.inj hE).symm
    · rw [h, remapEntries_NoEntries] at hE
      rw [h]
      exact (Except.ok.inj hE).symm
  · intro hn
    simp only [not_or] at hn
    obtain ⟨h1, h2, h3⟩ := hn
    cases hc : o.chunkerFunc with
    | none => exact absurd (by simp [options.remapEntriesEnabled, hc]) h1
    | some f =>
      refine ⟨f, rfl, ?_⟩
      have hs : skipRemap o S.Entries = false := by simpa using h2
      cases hSE : S.Entries with
      | NoEntries => exact absurd hSE h3
      | entryChunk root =>
        rw [hSE] at hE hs
        rw [remapEntries_entryChunk hashing o root f hc hs] at hE
        exact hE
      | hamt root =>
        rw [hSE] at hE hs
        rw [remapEntries_hamt hashing o root f hc hs] at hE
        exact hE
      | unknown cid =>
        rw [hSE] at hE hs
        rw [remapEntries_unknown hashing o cid f hc hs] at hE
        exact absurd hE (by simp)

/-- Witness of C6, amended: a removal advertisement under an EntryChunk remapper. -/
theorem entries_unchanged_if_witness :
    rewriteAd exampleHashing exampleChainOptions [] exampleRemoval = .ok exampleRemoval ∧
      ((exampleChainOptions.remapEntriesEnabled = false ∨
        (exampleChainOptions.skipRemapOnEntriesTypeMatch = true ∧
          exampleChainOptions.entriesRemapPrototype.map TypedPrototype.kind =
            some exampleRemoval.Entries.kind) ∨
        exampleRemoval.Entries = Link.NoEntries) →
        exampleRemoval.Entries = exampleRemoval.Entries) :=
  ⟨by decide,
    (entries_unchanged_if exampleHashing exampleChainOptions [] exampleRemoval exampleRemoval
      (by decide)).1⟩

/-- C7. NoEntries is preserved: for every source advertisement whose Entries is
the `NoEntries` sentinel, and for every configuration, the entries link of every
mirrored advertisement is `NoEntries`, and a mirror that has a host produces the
mirrored advertisement. -/
theorem noEntries_preserved (hashing : Hashing) (o : options) (mapping : List (Cid × Cid))
    (S : Advertisement) (hS : S.Entries = Link.NoEntries) :
    (∀ M : Advertisement, rewriteAd hashing o mapping S = .ok M → M.Entries = Link.NoEntries) ∧
      (∀ hst : Host, o.h = some hst →
        ∃ M : Advertisement, rewriteAd hashing o mapping S = .ok M ∧
          M.Entries = Link.NoEntries) := by
  have hall : ∀ M : Advertisement, rewriteAd hashing o mapping S = .ok M →
      M.Entries = Link.NoEntries := by
    intro M hM
    obtain ⟨_, hE, _⟩ := rewriteAd_fields hashing o mapping S M hM
    rw [hS, remapEntries_NoEntries] at hE
    exact (Except.ok.inj hE).symm
  refine ⟨hall, ?_⟩
  intro hst hh
  have hex : ∃ M : Advertisement, rewriteAd hashing o mapping S = .ok M := by
    unfold rewriteAd
    rw [hS, remapEntries_NoEntries]
    simp only [hh]
    split <;> exact ⟨_, rfl⟩
  obtain ⟨M, hM⟩ := hex
  exact ⟨M, hM, hall M hM⟩

/-- Witness of C7: a removal advertisement under a HAMT remapper. -/
theorem noEntries_preserved_witness :
    exampleRemoval.Entries = Link.NoEntries ∧
      ∃ M : Advertisement,
        rewriteAd exampleHashing exampleHamtOptions [(5, 6)] exampleRemoval = .ok M ∧
          M.Entries = Link.NoEntries :=
  ⟨rfl, (noEntries_preserved exampleHashing exampleHamtOptions [(5, 6)] exampleRemoval rfl).2
    ⟨2⟩ rfl⟩

/-! ## Part 10. Lemmas on the chunkers -/

theorem EntryChunk.mhs_mk (es : List Multihash) (next : Option EntryChunk) :
    (EntryChunk.mk es next).mhs = es ++ (next.map EntryChunk.mhs).getD [] := by
  cases next <;> simp [EntryChunk.mhs]

theorem chainChunkLoop_perm (chunkSize : Int) (iter : List Multihash) :
    ∀ (mhs : List Multihash) (previousRoot : Option EntryChunk),
      List.Perm (((chainChunkLoop chunkSize iter mhs previousRoot).map EntryChunk.mhs).getD [])
        (mhs ++ iter ++ (previousRoot.map EntryChunk.mhs).getD []) := by
  induction iter with
  | nil =>
    intro mhs previousRoot
    unfold chainChunkLoop
    by_cases h : mhs.length ≠ 0
    · rw [if_pos h]
      simp [EntryChunk.mhs_mk]
    · rw [if_neg h]
      have : mhs = [] := by
        simpa using h
      simp [this]
  | cons mh rest ih =>
    intro mhs previousRoot
    unfold chainChunkLoop
    by_cases h : ((mhs ++ [mh]).length : Int) ≥ chunkSize
    · rw [if_pos h]
      refine (ih [] _).trans ?_
      simp only [List.nil_append, Option.map_some', Option.getD_some, EntryChunk.mhs_mk]
      rw [List.perm_iff_count]
      intro a
      simp only [List.count_append, List.count_cons, List.count_nil]
      omega
    · rw [if_neg h]
      refine (ih _ _).trans ?_
      simp

theorem chainChunk_perm (chunkSize : Int) (iter : List Multihash) (root : EntryChunk)
    (h : chainChunk chunkSize iter = some root) : List.Perm root.mhs iter := by
  have := chainChunkLoop_perm chunkSize iter [] none
  unfold chainChunk at h
  rw [h] at this
  simpa using this

theorem filter_bind_perm {α : Type} (s : α → Nat) (keys : List α) :
    ∀ slots : List Nat, slots.Nodup →
      List.Perm (slots.flatMap fun i => keys.filter fun k => s k = i)
        (keys.filter fun k => s k ∈ slots) := by
  intro slots
  induction slots with
  | nil => intro _; simp
  | cons i rest ih =>
    intro hnd
    have hi : i ∉ rest := (List.nodup_cons.mp hnd).1
    have h1 := ih (List.nodup_cons.mp hnd).2
    simp only [List.flatMap_cons]
    refine (List.Perm.append_left _ h1).trans ?_
    have h2 := List.filter_append_perm (fun k => decide (s k = i))
      (keys.filter fun k => s k ∈ i :: rest)
    refine List.Perm.trans ?_ h2
    rw [List.filter_filter, List.filter_filter]
    have e1 : (keys.filter fun k => decide (s k = i)) =
        keys.filter (fun a => decide (s a = i) && decide (s a ∈ i :: rest)) := by
      apply List.filter_congr
      intro k _
      by_cases hk : s k = i <;> simp [hk]
    have e2 : (keys.filter fun k => decide (s k ∈ rest)) =
        keys.filter (fun a => (!decide (s a = i)) && decide (s a ∈ i :: rest)) := by
      apply List.filter_congr
      intro k _
      by_cases hk : s k = i
      · simp [hk, hi]
      · simp [hk]
    rw [← e1, ← e2]

theorem slotsKeys_map (f : Nat → HashMapNode) (slots : List Nat) :
    HashMapNode.slotsKeys (slots.map f) = slots.flatMap fun i => (f i).keys := by
  induction slots with
  | nil => simp [HashMapNode.slotsKeys]
  | cons i rest ih => simp [HashMapNode.slotsKeys, ih]

theorem buildNode_keys_perm (slotOf : Nat → Multihash → Nat) (bitWidth bucketSize : Nat) :
    ∀ (fuel depth : Nat) (keys : List Multihash),
      List.Perm (buildNode slotOf bitWidth bucketSize fuel depth keys).keys keys := by
  intro fuel
  induction fuel with
  | zero => intro depth keys; simp [buildNode, HashMapNode.keys]
  | succ fuel ih =>
    intro depth keys
    unfold buildNode
    by_cases h : keys.length ≤ bucketSize
    · rw [if_pos h]; simp [HashMapNode.keys]
    · rw [if_neg h]
      simp only [HashMapNode.keys]
      rw [slotsKeys_map]
      have h1 : List.Perm
          ((List.range (2 ^ bitWidth)).flatMap fun i =>
            (buildNode slotOf bitWidth bucketSize fuel (depth + 1)
              (keys.filter fun k => slotOf depth k % 2 ^ bitWidth = i)).keys)
          ((List.range (2 ^ bitWidth)).flatMap fun i =>
            keys.filter fun k => slotOf depth k % 2 ^ bitWidth = i) :=
        List.Perm.flatMap_left _ (fun i _ => ih _ _)
      refine h1.trans ?_
      refine (filter_bind_perm (fun k => slotOf depth k % 2 ^ bitWidth) keys _
        (List.nodup_range _)).trans ?_
      have : (keys.filter fun k => slotOf depth k % 2 ^ bitWidth ∈ List.range (2 ^ bitWidth))
          = keys := by
        rw [List.filter_eq_self]
        intro k _
        simp only [List.mem_range, decide_eq_true_eq]
        exact Nat.mod_lt _ (by positivity)
      rw [this]

theorem hamtChunk_keys_perm (hashing : Hashing) (hashAlg : Nat) (bitwidth bucketSize : Int)
    (iter : List Multihash) :
    List.Perm (hamtChunk hashing hashAlg bitwidth bucketSize iter).hamt.keys iter := by
  unfold hamtChunk
  exact (buildNode_keys_perm _ _ _ _ _ _).trans (List.perm_insertionSort _ _)

theorem Chunk_chain_mh (hashing : Hashing) (chunkSize : Int) (iter : List Multihash)
    (link : Link) (h : (NewChunkerFunc.chain chunkSize).Chunk hashing iter = .ok link) :
    List.Perm link.mh iter := by
  unfold NewChunkerFunc.Chunk at h
  cases hc : chainChunk chunkSize iter with
  | none => simp [hc] at h
  | some root =>
    simp only [hc, Except.ok.injEq] at h
    subst h
    exact chainChunk_perm chunkSize iter root hc

theorem Chunk_hamt_mh (hashing : Hashing) (hashAlg : Nat) (bitwidth bucketSize : Int)
    (iter : List Multihash) (link : Link)
    (h : (NewChunkerFunc.hamt hashAlg bitwidth bucketSize).Chunk hashing iter = .ok link) :
    List.Perm link.mh iter := by
  simp only [NewChunkerFunc.Chunk, Except.ok.injEq] at h
  subst h
  exact hamtChunk_keys_perm hashing hashAlg bitwidth bucketSize iter

theorem remapEntries_ok (hashing : Hashing) (o : options) (entries result : Link)
    (h : remapEntries hashing o entries = .ok result) :
    result = entries ∨
      ∃ f : NewChunkerFunc, o.chunkerFunc = some f ∧ f.Chunk hashing entries.mh = .ok result := by
  by_cases he : entries = Link.NoEntries
  · rw [he, remapEntries_NoEntries] at h
    exact Or.inl (by rw [he]; exact (Except.ok.inj h).symm)
  · cases hc : o.chunkerFunc with
    | none =>
      rw [remapEntries_unset hashing o _ hc] at h
      exact Or.inl (Except.ok.inj h).symm
    | some f =>
      cases hs : skipRemap o entries with
      | true =>
        rw [remapEntries_skip hashing o _ hs] at h
        exact Or.inl (Except.ok.inj h).symm
      | false =>
        refine Or.inr ⟨f, rfl, ?_⟩
        cases entries with
        | NoEntries => exact absurd rfl he
        | entryChunk root => rw [remapEntries_entryChunk hashing o root f hc hs] at h; exact h
        | hamt root => rw [remapEntries_hamt hashing o root f hc hs] at h; exact h
        | unknown cid =>
          rw [remapEntries_unknown hashing o cid f hc hs] at h
          exact absurd h (by simp)

/-! ## Part 11. Entries-set preservation -/

/-- C3. Entries-set preservation: for every mirrored advertisement (whose source
entries are not NoEntries, and also when they are) and for every configuration
(no remapper, EntryChunk of any chunk size, HAMT of any hash, bit-width and
bucket size), the multiset of multihashes enumerated from `M.Entries` equals the
multiset of multihashes behind `S.Entries`: the same elements with the same
multiplicities, order ignored. -/
theorem entries_set_preserved (hashing : Hashing) (o : options) (mapping : List (Cid × Cid))
    (S M : Advertisement) (hM : rewriteAd hashing o mapping S = .ok M) :
    (↑M.Entries.mh : Multiset Multihash) = ↑S.Entries.mh := by
  obtain ⟨_, hE, _⟩ := rewriteAd_fields hashing o mapping S M hM
  rcases remapEntries_ok hashing o S.Entries M.Entries hE with heq | ⟨f, _, hch⟩
  · rw [heq]
  · cases f with
    | chain chunkSize =>
      exact Multiset.coe_eq_coe.mpr (Chunk_chain_mh hashing chunkSize _ _ hch)
    | hamt hashAlg bitwidth bucketSize =>
      exact Multiset.coe_eq_coe.mpr (Chunk_hamt_mh hashing hashAlg bitwidth bucketSize _ _ hch)

/-- Witness of C3: the advertisement whose chunk lists the multihash `[1]` twice,
mirrored with the HAMT remapper of `WithHamtRemapper(34, 3, 1)`. -/
theorem entries_set_preserved_witness :
    exampleRepeated.Entries ≠ Link.NoEntries ∧
      rewriteAd exampleHashing exampleHamtOptions [] exampleRepeated =
        .ok (Advertisement.Sign
          { exampleRepeated with
            Entries := Link.hamt (hamtChunk exampleHashing 34 3 1 [[1], [1]]) } 2) ∧
      ((↑(Link.hamt (hamtChunk exampleHashing 34 3 1 [[1], [1]])).mh : Multiset Multihash) =
        ↑exampleRepeated.Entries.mh) :=
  ⟨by decide, by decide,
    entries_set_preserved exampleHashing exampleHamtOptions [] exampleRepeated
      (Advertisement.Sign
          { exampleRepeated with
            Entries := Link.hamt (hamtChunk exampleHashing 34 3 1 [[1], [1]]) } 2)
      (by decide)⟩

/-! ## Part 12. The identity mirror -/

theorem rewriteAd_identity (hashing : Hashing) (o : options) (mapping : List (Cid × Cid))
    (S : Advertisement) (hc : o.chunkerFunc = none) (ha : o.alwaysReSignAds = false)
    (hp : ∀ previous : Cid, S.PreviousID = some previous →
      mapping.lookup previous = some previous) :
    rewriteAd hashing o mapping S = .ok S := by
  have h1 : rewritePreviousID mapping S.PreviousID = S.PreviousID := by
    cases hprev : S.PreviousID with
    | none => rfl
    | some previous => simp [rewritePreviousID, hp previous hprev]
  unfold rewriteAd
  rw [remapEntries_unset hashing o _ hc]
  simp [h1, ha]

theorem promoteAds_identity (hashing : Hashing) (o : options) (cidOf : Advertisement → Cid)
    (hc : o.chunkerFunc = none) (ha : o.alwaysReSignAds = false) (chain : List Advertisement) :
    ∀ (previous : Option Cid) (st : MirrorStore), IsChain cidOf previous chain →
      (∀ p : Cid, previous = some p → st.mapping.lookup p = some p) →
      promoteAds hashing o cidOf chain st =
        .ok { mapping := (chain.reverse.map fun S => (cidOf S, cidOf S)) ++ st.mapping
              head := st.head
              blocks := (chain.reverse.map fun S => (cidOf S, S)) ++ st.blocks } := by
  induction chain with
  | nil => intro previous st _ _; simp [promoteAds]
  | cons S rest ih =>
    intro previous st hchain hprev
    obtain ⟨hS, hrest⟩ := hchain
    have h1 : rewriteAd hashing o st.mapping S = .ok S :=
      rewriteAd_identity hashing o st.mapping S hc ha (fun p hp => hprev p (hS ▸ hp))
    simp only [promoteAds, promoteAd, h1]
    rw [ih (some (cidOf S)) _ hrest]
    · simp
    · intro p hp
      have : cidOf S = p := Option.some.inj hp
      subst this
      simp [List.lookup]

theorem IsChain_previous (cidOf : Advertisement → Cid) (S : Advertisement)
    (post : List Advertisement) (pre : List Advertisement) :
    ∀ previous : Option Cid, IsChain cidOf previous (pre ++ S :: post) →
      S.PreviousID = (pre.getLast?.map cidOf).or previous := by
  induction pre with
  | nil => intro previous h; exact h.1
  | cons A rest ih =>
    intro previous h
    have h2 := ih (some (cidOf A)) h.2
    rw [h2]
    cases rest with
    | nil => simp
    | cons B rest2 =>
      have : (B :: rest2).getLast? = some ((B :: rest2).getLast (by simp)) :=
        List.getLast?_eq_getLast _ _
      simp [List.getLast?_cons_cons, this]

theorem lookup_reverse_concat (cidOf : Advertisement → Cid) (init : List Advertisement)
    (A : Advertisement) :
    List.lookup (cidOf A) ((init ++ [A]).reverse.map fun S => (cidOf S, cidOf S)) =
      some (cidOf A) := by
  simp [List.lookup]

/-- C4. Identity mirror: with no remapper configured, `alwaysReSignAds` false and
the whole source chain mirrored from genesis (no initial recursion limit, empty
mirror store), the tick succeeds, every advertisement of the chain is rewritten
to itself, the mapping sends every source CID to itself, every block of the
mirror is a source block, and the mirror head CID is the source head CID. -/
theorem identity_mirror (hashing : Hashing) (o : options) (cidOf : Advertisement → Cid)
    (chain : List Advertisement) (headAd : Advertisement)
    (hc : o.chunkerFunc = none) (ha : o.alwaysReSignAds = false)
    (hl : o.initAdRecurLimit = RecursionLimitNone)
    (hchain : IsChain cidOf none chain) (hhead : chain.getLast? = some headAd) :
    ∃ st : MirrorStore, tick hashing o cidOf chain MirrorStore.empty = .ok st ∧
      (∀ (pre : List Advertisement) (S : Advertisement) (post : List Advertisement),
        chain = pre ++ S :: post →
          rewriteAd hashing o (pre.reverse.map fun A => (cidOf A, cidOf A)) S = .ok S) ∧
      st.mapping = (chain.reverse.map fun S => (cidOf S, cidOf S)) ∧
      st.blocks =
        (chain.reverse.map fun S => (cidOf S, S)) ++ (chain.map fun S => (cidOf S, S)) ∧
      st.head = some (cidOf headAd) ∧
      st.mirrorHead = some (cidOf headAd) := by
  have hp := promoteAds_identity hashing o cidOf hc ha chain none
    { mapping := [], head := none, blocks := chain.map fun S => (cidOf S, S) } hchain
    (fun p hp => by cases hp)
  refine ⟨⟨chain.reverse.map fun S => (cidOf S, cidOf S), some (cidOf headAd),
    (chain.reverse.map fun S => (cidOf S, S)) ++ (chain.map fun S => (cidOf S, S))⟩,
    ?_, ?_, rfl, rfl, rfl, ?_⟩
  · simp only [tick, hhead, MirrorStore.empty, syncAds, hl, RecursionLimitNone,
      List.append_nil]
    rw [if_neg (by simp), hp]
    simp
  · intro pre S post hsplit
    rw [hsplit] at hchain
    have hprev := IsChain_previous cidOf S post pre none hchain
    apply rewriteAd_identity hashing o _ S hc ha
    intro p hpS
    rw [hprev] at hpS
    rcases List.eq_nil_or_concat pre with hnil | ⟨init, A, hpre⟩
    · rw [hnil] at hpS; simp at hpS
    · rw [List.concat_eq_append] at hpre
      rw [hpre] at hpS ⊢
      simp [Option.or] at hpS
      rw [← hpS]
      exact lookup_reverse_concat cidOf init A
  · simp only [MirrorStore.mirrorHead]
    rcases List.eq_nil_or_concat chain with hnil | ⟨init, A, hch⟩
    · rw [hnil] at hhead; simp at hhead
    · rw [List.concat_eq_append] at hch
      rw [hch] at hhead ⊢
      simp at hhead
      rw [← hhead]
      exact lookup_reverse_concat cidOf init A

/-- Witness of C4: the chain of two advertisements under the default options. -/
theorem identity_mirror_witness :
    exampleDefaultOptions.chunkerFunc = none ∧
    exampleDefaultOptions.alwaysReSignAds = false ∧
    exampleDefaultOptions.initAdRecurLimit = RecursionLimitNone ∧
    IsChain exampleCidOf none exampleChain ∧
    exampleChain.getLast? = some exampleSecond ∧
    ∃ st : MirrorStore,
      tick exampleHashing exampleDefaultOptions exampleCidOf exampleChain MirrorStore.empty
        = .ok st ∧
      (∀ (pre : List Advertisement) (S : Advertisement) (post : List Advertisement),
        exampleChain = pre ++ S :: post →
          rewriteAd exampleHashing exampleDefaultOptions
            (pre.reverse.map fun A => (exampleCidOf A, exampleCidOf A)) S = .ok S) ∧
      st.mapping = (exampleChain.reverse.map fun S => (exampleCidOf S, exampleCidOf S)) ∧
      st.blocks =
        (exampleChain.reverse.map fun S => (exampleCidOf S, S)) ++
          (exampleChain.map fun S => (exampleCidOf S, S)) ∧
      st.head = some (exampleCidOf exampleSecond) ∧
      st.mirrorHead = some (exampleCidOf exampleSecond) :=
  ⟨rfl, rfl, rfl, ⟨rfl, rfl, trivial⟩, rfl,
    identity_mirror exampleHashing exampleDefaultOptions exampleCidOf exampleChain exampleSecond
      rfl rfl rfl ⟨rfl, rfl, trivial⟩ rfl⟩

/-! ## Part 13. Lemmas: the last option of a kind wins -/

theorem toOption_lastWins (c : OptionCall) (d : options) :
    c.toOption d = .ok (lastWins [c] d) := by
  cases c <;> rfl

theorem lastWins_cons (c : OptionCall) (rest : List OptionCall) (d : options) :
    lastWins (c :: rest) d = lastWins rest (lastWins [c] d) := by
  simp only [lastWins, lastArg]
  cases c <;>
    simp only [OptionCall.hostArg, OptionCall.datastoreArg, OptionCall.syncIntervalArg,
      OptionCall.initAdRecurLimitArg, OptionCall.entriesRecurLimitArg, OptionCall.remap,
      OptionCall.cacheCapArg, OptionCall.purgeArg, OptionCall.topicArg, OptionCall.skipArg,
      OptionCall.alwaysReSignArg] <;>
    congr 1 <;> (split <;> simp_all)

theorem applyAll_calls_lastWins (l : List OptionCall) :
    ∀ d : options, applyAll (l.map OptionCall.toOption) d = .ok (lastWins l d) := by
  induction l with
  | nil => intro d; rfl
  | cons c rest ih =>
    intro d
    rw [List.map_cons, applyAll, toOption_lastWins]
    simp only []
    rw [ih, lastWins_cons c rest d]

theorem newOptions_calls (libp2pNew : Except Error Host) (l : List OptionCall) (o : options)
    (h : newOptions libp2pNew (l.map OptionCall.toOption) = .ok o) :
    o = { lastWins l initialOptions with
          h := ((lastWins l initialOptions).h).or libp2pNew.toOption
          ds := ((lastWins l initialOptions).ds).or (some Datastore.mapDatastore) } ∧
      o.h ≠ none := by
  unfold newOptions at h
  rw [applyAll_calls_lastWins] at h
  generalize lastWins l initialOptions = w at h ⊢
  obtain ⟨wh, wds, _, _, _, _, _, _, _, _, _, _⟩ := w
  cases wh <;> cases wds <;> cases libp2pNew <;>
    simp only [if_true, if_false, reduceCtorEq, Except.ok.injEq] at h <;>
    first
      | exact absurd h (by simp)
      | (subst h; exact ⟨rfl, by simp⟩)

/-! ## Part 14. The configuration profile: presence, order and frame of the options -/

/-- C13. Host and datastore are always present after construction: for every list
of option calls on which `newOptions` succeeds, the host and the datastore are
non-nil; a non-nil value given by the last `WithHost` or `WithDatastore` call is
kept as is, and when no such call is in the list, or the last one gives nil, the
host `libp2p.New()` returns, respectively the in-memory datastore, is
substituted. -/
theorem host_datastore_present (libp2pNew : Except Error Host) (l : List OptionCall)
    (o : options) (h : newOptions libp2pNew (l.map OptionCall.toOption) = .ok o) :
    o.h ≠ none ∧ o.ds ≠ none ∧
      (∀ hst : Host, lastArg OptionCall.hostArg l = some (some hst) → o.h = some hst) ∧
      (∀ ds : Datastore, lastArg OptionCall.datastoreArg l = some (some ds) → o.ds = some ds) ∧
      ((lastArg OptionCall.hostArg l = none ∨ lastArg OptionCall.hostArg l = some none) →
        ∃ hst : Host, libp2pNew = .ok hst ∧ o.h = some hst) ∧
      ((lastArg OptionCall.datastoreArg l = none ∨
          lastArg OptionCall.datastoreArg l = some none) →
        o.ds = some Datastore.mapDatastore) := by
  obtain ⟨ho, hne⟩ := newOptions_calls libp2pNew l o h
  have hh : o.h = ((lastArg OptionCall.hostArg l).getD none).or libp2pNew.toOption := by
    rw [ho]; rfl
  have hd : o.ds = ((lastArg OptionCall.datastoreArg l).getD none).or
      (some Datastore.mapDatastore) := by
    rw [ho]; rfl
  refine ⟨hne, ?_, ?_, ?_, ?_, ?_⟩
  · rw [hd]
    cases (lastArg OptionCall.datastoreArg l) with
    | none => simp
    | some a => cases a <;> simp
  · intro hst hl
    rw [hh, hl]; rfl
  · intro ds hl
    rw [hd, hl]; rfl
  · intro hl
    have hor : o.h = libp2pNew.toOption := by
      rcases hl with hl | hl <;> rw [hh, hl] <;> rfl
    cases hN : libp2pNew with
    | error e => rw [hN] at hor; exact absurd hor hne
    | ok hst => rw [hN] at hor; exact ⟨hst, rfl, hor⟩
  · intro hl
    rcases hl with hl | hl <;> rw [hd, hl] <;> rfl

/-- Witness of C13: a host option and a topic option; the host is kept and the
in-memory datastore is substituted. -/
theorem host_datastore_present_witness :
    newOptions (.ok ⟨7⟩)
        ([OptionCall.host (some ⟨3⟩), OptionCall.topicName "t"].map OptionCall.toOption) =
      .ok { initialOptions with
          h := some ⟨3⟩, ds := some Datastore.mapDatastore, topic := "t" } ∧
    (some ⟨3⟩ : Option Host) ≠ none ∧ (some Datastore.mapDatastore : Option Datastore) ≠ none :=
  ⟨rfl,
    (host_datastore_present (.ok ⟨7⟩) [OptionCall.host (some ⟨3⟩), OptionCall.topicName "t"]
      { initialOptions with h := some ⟨3⟩, ds := some Datastore.mapDatastore, topic := "t" }
      rfl).1,
    (host_datastore_present (.ok ⟨7⟩) [OptionCall.host (some ⟨3⟩), OptionCall.topicName "t"]
      { initialOptions with h := some ⟨3⟩, ds := some Datastore.mapDatastore, topic := "t" }
      rfl).2.1⟩

/-- C17, counterexample. The only host option of the list is `WithHost(nil)`, and
the resulting host is not the argument of that option: it is the host
`libp2p.New()` returns. -/
theorem last_wins_host_counterexample :
    newOptions (.ok ⟨7⟩) ([OptionCall.host none].map OptionCall.toOption) =
        .ok { initialOptions with h := some ⟨7⟩, ds := some Datastore.mapDatastore } ∧
      lastArg OptionCall.hostArg [OptionCall.host none] = some none ∧
      (some ⟨7⟩ : Option Host) ≠ none := by
  decide

/-- C17, amended. Options are applied in list order and the last one wins: for
every list of option calls on which `newOptions` succeeds, topic, ticker,
recursion limits, cache capacity, purge flag, skip flag and always-re-sign flag
are the argument of the last call of their kind in the list, and the default
when there is none; chunker func and remap prototype are those of the last
remapper call, and unset when there is none; host and datastore are the
argument of the last call of their kind when that argument is not nil, and
otherwise the host `libp2p.New()` returns, respectively the in-memory
datastore. -/
theorem last_wins (libp2pNew : Except Error Host) (l : List OptionCall) (o : options)
    (h : newOptions libp2pNew (l.map OptionCall.toOption) = .ok o) :
    o.topic = (lastArg OptionCall.topicArg l).getD "/indexer/ingest/mainnet" ∧
      o.ticker = (lastArg OptionCall.syncIntervalArg l).getD (some (NewTicker (10 * Minute))) ∧
      o.initAdRecurLimit = (lastArg OptionCall.initAdRecurLimitArg l).getD RecursionLimitNone ∧
      o.entriesRecurLimit = (lastArg OptionCall.entriesRecurLimitArg l).getD RecursionLimitNone ∧
      o.chunkCacheCap = (lastArg OptionCall.cacheCapArg l).getD 1024 ∧
      o.chunkCachePurge = (lastArg OptionCall.purgeArg l).getD false ∧
      o.skipRemapOnEntriesTypeMatch = (lastArg OptionCall.skipArg l).getD false ∧
      o.alwaysReSignAds = (lastArg OptionCall.alwaysReSignArg l).getD false ∧
      o.chunkerFunc = (lastArg OptionCall.remap l).map (fun r => r.1) ∧
      o.entriesRemapPrototype = (lastArg OptionCall.remap l).map (fun r => r.2) ∧
      o.h = ((lastArg OptionCall.hostArg l).getD none).or libp2pNew.toOption ∧
      o.ds = ((lastArg OptionCall.datastoreArg l).getD none).or
        (some Datastore.mapDatastore) := by
  obtain ⟨ho, _⟩ := newOptions_calls libp2pNew l o h
  refine ⟨by rw [ho]; rfl, by rw [ho]; rfl, by rw [ho]; rfl, by rw [ho]; rfl, by rw [ho]; rfl,
    by rw [ho]; rfl, by rw [ho]; rfl, by rw [ho]; rfl, ?_, ?_, by rw [ho]; rfl,
    by rw [ho]; rfl⟩
  · rw [ho]
    simp only [lastWins, initialOptions]
    cases lastArg OptionCall.remap l <;> rfl
  · rw [ho]
    simp only [lastWins, initialOptions]
    cases lastArg OptionCall.remap l <;> rfl

/-- Witness of C17, amended: two topic options; the second one wins. -/
theorem last_wins_witness :
    newOptions (.ok ⟨7⟩)
        ([OptionCall.topicName "a", OptionCall.topicName "b"].map OptionCall.toOption) =
      .ok { initialOptions with
          h := some ⟨7⟩, ds := some Datastore.mapDatastore, topic := "b" } ∧
    "b" = (lastArg OptionCall.topicArg
      [OptionCall.topicName "a", OptionCall.topicName "b"]).getD "/indexer/ingest/mainnet" :=
  ⟨rfl,
    (last_wins (.ok ⟨7⟩) [OptionCall.topicName "a", OptionCall.topicName "b"]
      { initialOptions with h := some ⟨7⟩, ds := some Datastore.mapDatastore, topic := "b" }
      rfl).1⟩

/-- C20. Each option changes only its own setting: for every options value and
every argument, each of the ten single-field options returns the options value
with exactly its field set to the argument, and the two remapper options return
it with exactly the chunker func and the remap prototype set. -/
theorem option_sets_own_field (o : options) :
    (∀ ds, WithDatastore ds o = .ok { o with ds := ds }) ∧
      (∀ h, WithHost h o = .ok { o with h := h }) ∧
      (∀ t, WithSyncInterval t o = .ok { o with ticker := t }) ∧
      (∀ l, WithInitialAdRecursionLimit l o = .ok { o with initAdRecurLimit := l }) ∧
      (∀ l, WithEntriesRecursionLimit l o = .ok { o with entriesRecurLimit := l }) ∧
      (∀ c, WithRemappedEntriesCacheCapacity c o = .ok { o with chunkCacheCap := c }) ∧
      (∀ b, WithPurgeCachedEntries b o = .ok { o with chunkCachePurge := b }) ∧
      (∀ t, WithTopicName t o = .ok { o with topic := t }) ∧
      (∀ s, WithSkipRemapOnEntriesTypeMatch s o =
        .ok { o with skipRemapOnEntriesTypeMatch := s }) ∧
      (∀ r, WithAlwaysReSignAds r o = .ok { o with alwaysReSignAds := r }) ∧
      (∀ chunkSize, WithEntryChunkRemapper chunkSize o =
        .ok { o with
          chunkerFunc := some (NewChunkerFunc.chain chunkSize)
          entriesRemapPrototype := some TypedPrototype.EntryChunkPrototype }) ∧
      (∀ hashAlg bitwidth bucketSize, WithHamtRemapper hashAlg bitwidth bucketSize o =
        .ok { o with
          chunkerFunc := some (NewChunkerFunc.hamt hashAlg bitwidth bucketSize)
          entriesRemapPrototype := some TypedPrototype.HashMapRootPrototype }) :=
  ⟨fun _ => rfl, fun _ => rfl, fun _ => rfl, fun _ => rfl, fun _ => rfl, fun _ => rfl,
    fun _ => rfl, fun _ => rfl, fun _ => rfl, fun _ => rfl, fun _ => rfl, fun _ _ _ => rfl⟩

/-! ## Part 15. The skip flag, the re-sign rule and the CDN property -/

theorem lastRemapper_none (l : List OptionCall) (h : ∀ c ∈ l, c.isRemapper = false) :
    lastRemapper l = none := by
  cases hr : lastRemapper l with
  | none => rfl
  | some r =>
    obtain ⟨c, hc, hc2⟩ := (lastRemapper_isSome l).mp (by simp [hr])
    rw [h c hc] at hc2
    exact absurd hc2 (by simp)

/-- C15. `WithSkipRemapOnEntriesTypeMatch` has no effect without a remapper: for
every boolean `s` and every list of option calls without a remapper call, with
`WithSkipRemapOnEntriesTypeMatch(s)` added anywhere in the list,
`remapEntriesEnabled` is false and the remap prototype is unset, so the entries
link of every mirrored advertisement is the entries link of its source. -/
theorem skip_without_remapper (libp2pNew : Except Error Host) (l1 l2 : List OptionCall)
    (s : Bool) (o : options)
    (hno : ∀ c ∈ l1 ++ l2, c.isRemapper = false)
    (h : newOptions libp2pNew
      ((l1 ++ OptionCall.skipRemapOnEntriesTypeMatch s :: l2).map OptionCall.toOption) = .ok o) :
    o.remapEntriesEnabled = false ∧ o.entriesRemapPrototype = none ∧
      ∀ (hashing : Hashing) (mapping : List (Cid × Cid)) (S M : Advertisement),
        rewriteAd hashing o mapping S = .ok M → M.Entries = S.Entries := by
  have hl : lastRemapper (l1 ++ OptionCall.skipRemapOnEntriesTypeMatch s :: l2) = none := by
    apply lastRemapper_none
    intro c hc
    rcases List.mem_append.mp hc with h1 | h1
    · exact hno c (List.mem_append.mpr (Or.inl h1))
    · rcases List.mem_cons.mp h1 with h2 | h2
      · rw [h2]; rfl
      · exact hno c (List.mem_append.mpr (Or.inr h2))
  have h1 := newOptions_calls_remap libp2pNew _ o h
  rw [hl] at h1
  simp only [Prod.mk.injEq] at h1
  refine ⟨by simp [options.remapEntriesEnabled, h1.1], h1.2, ?_⟩
  intro hashing mapping S M hM
  obtain ⟨_, hE, _⟩ := rewriteAd_fields hashing o mapping S M hM
  rw [remapEntries_unset hashing o _ h1.1] at hE
  exact (Except.ok.inj hE).symm

/-- Witness of C15: the skip option between a topic option and a purge option. -/
theorem skip_without_remapper_witness :
    (∀ c ∈ [OptionCall.topicName "t"] ++ [OptionCall.purgeCachedEntries true],
        c.isRemapper = false) ∧
    newOptions (.ok ⟨7⟩)
        (([OptionCall.topicName "t"] ++ OptionCall.skipRemapOnEntriesTypeMatch true ::
          [OptionCall.purgeCachedEntries true]).map OptionCall.toOption) =
      .ok { initialOptions with
          h := some ⟨7⟩, ds := some Datastore.mapDatastore, topic := "t"
          skipRemapOnEntriesTypeMatch := true, chunkCachePurge := true } ∧
    options.remapEntriesEnabled { initialOptions with
          h := some ⟨7⟩, ds := some Datastore.mapDatastore, topic := "t"
          skipRemapOnEntriesTypeMatch := true, chunkCachePurge := true } = false :=
  ⟨by decide, rfl,
    (skip_without_remapper (.ok ⟨7⟩) [OptionCall.topicName "t"]
      [OptionCall.purgeCachedEntries true] true
      { initialOptions with
          h := some ⟨7⟩, ds := some Datastore.mapDatastore, topic := "t"
          skipRemapOnEntriesTypeMatch := true, chunkCachePurge := true }
      (by decide) rfl).1⟩

theorem rewriteAd_signature (hashing : Hashing) (o : options) (mapping : List (Cid × Cid))
    (S M : Advertisement) (hst : Host) (hHost : o.h = some hst)
    (hM : rewriteAd hashing o mapping S = .ok M) :
    ((M.PreviousID ≠ S.PreviousID ∨ M.Entries ≠ S.Entries ∨ o.alwaysReSignAds = true) →
        M.VerifySignature = .ok hst.ID) ∧
      (¬ (M.PreviousID ≠ S.PreviousID ∨ M.Entries ≠ S.Entries ∨ o.alwaysReSignAds = true) →
        M = S) := by
  obtain ⟨entries, _, hcase⟩ := rewriteAd_ok hashing o mapping S M hM
  rcases hcase with ⟨hc, hst1, hh, hMeq⟩ | ⟨hc, hMeq⟩
  · have hhst : hst1 = hst := by
      rw [hHost] at hh
      exact (Option.some.inj hh).symm
    subst hhst
    have hP : M.PreviousID = rewritePreviousID mapping S.PreviousID := by rw [hMeq]; rfl
    have hE : M.Entries = entries := by rw [hMeq]; rfl
    refine ⟨fun _ => by rw [hMeq]; exact verifySignature_sign _ _, ?_⟩
    intro hn
    rw [hP, hE] at hn
    exact absurd hc hn
  · have hMS : M = S := by
      simp only [not_or, ne_eq, not_not] at hc
      rw [hMeq, hc.1, hc.2.1]
    subst hMS
    refine ⟨?_, fun _ => rfl⟩
    intro hch
    rcases hch with h1 | h1 | h1
    · exact absurd rfl h1
    · exact absurd rfl h1
    · exact absurd (Or.inr (Or.inr h1)) hc

/-- C14, counterexample. With `alwaysReSignAds` false, an advertisement whose
entries are remapped to a HAMT is re-signed by the mirror (peer 2), as
`requireAdMirrored` requires, although its entries link is changed. -/
theorem resign_rule_counterexample :
    exampleHamtOptions.alwaysReSignAds = false ∧
    examplePut.VerifySignature = .ok 1 ∧
    ∃ M : Advertisement,
      rewriteAd exampleHashing exampleHamtOptions [] examplePut = .ok M ∧
        M.VerifySignature = .ok 2 ∧
        wantSigner exampleHamtOptions.alwaysReSignAds 1 2 examplePut M = 2 ∧
        ¬ (M.PreviousID = examplePut.PreviousID ∧ M.Entries = examplePut.Entries) := by
  refine ⟨rfl, by decide, Advertisement.Sign
    { examplePut with Entries := Link.hamt (hamtChunk exampleHashing 34 3 1 [[1], [2]]) } 2,
    by decide, by decide, by decide, by decide⟩

/-- C14, amended. Default re-sign rule: when `alwaysReSignAds` is false, a mirrored
advertisement is signed by the mirror if and only if the link to the previous
advertisement is changed or the link to entries is changed; otherwise it
carries the signature of the source. -/
theorem resign_iff_changed (hashing : Hashing) (o : options) (mapping : List (Cid × Cid))
    (S M : Advertisement) (hst : Host) (sourceID : PeerID)
    (hAlways : o.alwaysReSignAds = false)
    (hHost : o.h = some hst)
    (hSource : S.VerifySignature = .ok sourceID)
    (hNe : sourceID ≠ hst.ID)
    (hM : rewriteAd hashing o mapping S = .ok M) :
    (M.VerifySignature = .ok hst.ID ↔
        (M.PreviousID ≠ S.PreviousID ∨ M.Entries ≠ S.Entries)) ∧
      (¬ (M.PreviousID ≠ S.PreviousID ∨ M.Entries ≠ S.Entries) →
        M.Signature = S.Signature ∧ M.VerifySignature = .ok sourceID) := by
  obtain ⟨h1, h2⟩ := rewriteAd_signature hashing o mapping S M hst hHost hM
  have hunch : ¬ (M.PreviousID ≠ S.PreviousID ∨ M.Entries ≠ S.Entries) → M = S := by
    intro hn
    apply h2
    rintro (h | h | h)
    · exact hn (Or.inl h)
    · exact hn (Or.inr h)
    · rw [hAlways] at h; exact Bool.noConfusion h
  refine ⟨⟨?_, ?_⟩, ?_⟩
  · intro hv
    by_contra hn
    have hMS := hunch hn
    rw [hMS, hSource] at hv
    exact hNe (Except.ok.inj hv)
  · rintro (h | h)
    · exact h1 (Or.inl h)
    · exact h1 (Or.inr (Or.inl h))
  · intro hn
    have hMS := hunch hn
    rw [hMS]
    exact ⟨rfl, hSource⟩

/-- Witness of C14, amended: an advertisement remapped to a HAMT is re-signed by
the mirror. -/
theorem resign_iff_changed_witness :
    exampleHamtOptions.alwaysReSignAds = false ∧
    exampleHamtOptions.h = some ⟨2⟩ ∧
    examplePut.VerifySignature = .ok 1 ∧
    (1 : PeerID) ≠ (⟨2⟩ : Host).ID ∧
    rewriteAd exampleHashing exampleHamtOptions [] examplePut =
      .ok (Advertisement.Sign
        { examplePut with
          Entries := Link.hamt (hamtChunk exampleHashing 34 3 1 [[1], [2]]) } 2) ∧
    ((Advertisement.Sign
        { examplePut with
          Entries := Link.hamt (hamtChunk exampleHashing 34 3 1 [[1], [2]]) } 2).VerifySignature
          = .ok (⟨2⟩ : Host).ID ↔
      ((Advertisement.Sign
          { examplePut with
            Entries := Link.hamt (hamtChunk exampleHashing 34 3 1 [[1], [2]]) } 2).PreviousID
            ≠ examplePut.PreviousID ∨
        (Advertisement.Sign
          { examplePut with
            Entries := Link.hamt (hamtChunk exampleHashing 34 3 1 [[1], [2]]) } 2).Entries
            ≠ examplePut.Entries)) :=
  ⟨rfl, rfl, by decide, by decide, by decide,
    (resign_iff_changed exampleHashing exampleHamtOptions [] examplePut
      (Advertisement.Sign
        { examplePut with
          Entries := Link.hamt (hamtChunk exampleHashing 34 3 1 [[1], [2]]) } 2)
      ⟨2⟩ 1 rfl rfl (by decide) (by decide) (by decide)).1⟩

theorem promoteAds_cdn (hashing : Hashing) (o : options) (cidOf : Advertisement → Cid)
    (ads : List Advertisement) :
    ∀ st st' : MirrorStore, promoteAds hashing o cidOf ads st = .ok st' →
      st.IsCdn cidOf → (∀ S ∈ ads, (cidOf S, S) ∈ st.blocks) →
      st'.IsCdn cidOf ∧ (∀ b ∈ st.blocks, b ∈ st'.blocks) ∧ st'.head = st.head := by
  induction ads with
  | nil =>
    intro st st' h hinv _
    simp only [promoteAds, Except.ok.injEq] at h
    subst h
    exact ⟨hinv, fun _ hb => hb, rfl⟩
  | cons S rest ih =>
    intro st st' h hinv hads
    simp only [promoteAds, promoteAd] at h
    cases hr : rewriteAd hashing o st.mapping S with
    | error e => simp [hr] at h
    | ok M =>
      simp only [hr] at h
      have h3 := ih _ st' h ?_ ?_
      · refine ⟨h3.1, ?_, h3.2.2⟩
        intro b hb
        exact h3.2.1 b (List.mem_cons_of_mem _ hb)
      · intro source mirrored hmem
        rcases List.mem_cons.mp hmem with heq | hold
        · simp only [Prod.mk.injEq] at heq
          refine ⟨⟨S, ?_, heq.1.symm⟩, ⟨M, ?_, heq.2.symm⟩⟩
          · rw [heq.1]
            exact List.mem_cons_of_mem _ (hads S (List.mem_cons_self _ _))
          · rw [heq.2]
            exact List.mem_cons_self _ _
        · obtain ⟨⟨S1, hS1, e1⟩, ⟨M1, hM1, e2⟩⟩ := hinv source mirrored hold
          exact ⟨⟨S1, List.mem_cons_of_mem _ hS1, e1⟩, ⟨M1, List.mem_cons_of_mem _ hM1, e2⟩⟩
      · intro S1 hS1
        exact List.mem_cons_of_mem _ (hads S1 (List.mem_cons_of_mem _ hS1))

theorem lookup_mem (mapping : List (Cid × Cid)) (source mirrored : Cid)
    (h : mapping.lookup source = some mirrored) : (source, mirrored) ∈ mapping := by
  induction mapping with
  | nil => simp at h
  | cons p rest ih =>
    obtain ⟨k, v⟩ := p
    by_cases hk : source = k
    · subst hk
      simp [List.lookup] at h
      simp [h]
    · have : (source == k) = false := by simpa using hk
      simp only [List.lookup, this] at h
      exact List.mem_cons_of_mem _ (ih h)

/-- C16. CDN property: after a successful tick on a store with the CDN property
(such as the empty store), for every source advertisement that has a mapping
entry the store holds a block under its original CID and a block under the CID
of its rewritten advertisement; no block of the store is removed. -/
theorem cdn_property (hashing : Hashing) (o : options) (cidOf : Advertisement → Cid)
    (chain : List Advertisement) (st st' : MirrorStore)
    (hCdn : st.IsCdn cidOf)
    (hTick : tick hashing o cidOf chain st = .ok st') :
    st'.IsCdn cidOf ∧
      (∀ source mirrored : Cid, st'.mapping.lookup source = some mirrored →
        (∃ S : Advertisement, (source, S) ∈ st'.blocks ∧ cidOf S = source) ∧
          (∃ M : Advertisement, (mirrored, M) ∈ st'.blocks ∧ cidOf M = mirrored)) ∧
      (∀ b ∈ st.blocks, b ∈ st'.blocks) := by
  have key : st'.IsCdn cidOf ∧ (∀ b ∈ st.blocks, b ∈ st'.blocks) := by
    unfold tick at hTick
    cases hl : chain.getLast? with
    | none =>
      simp only [hl, Except.ok.injEq] at hTick
      subst hTick
      exact ⟨hCdn, fun _ hb => hb⟩
    | some headAd =>
      simp only [hl] at hTick
      by_cases hh : st.head = some (cidOf headAd)
      · rw [if_pos hh] at hTick
        simp only [Except.ok.injEq] at hTick
        subst hTick
        exact ⟨hCdn, fun _ hb => hb⟩
      · rw [if_neg hh] at hTick
        cases hp : promoteAds hashing o cidOf (syncAds o cidOf st chain)
            { st with blocks := ((syncAds o cidOf st chain).map fun ad => (cidOf ad, ad))
                ++ st.blocks } with
        | error e => simp [hp] at hTick
        | ok st2 =>
          simp only [hp, Except.ok.injEq] at hTick
          subst hTick
          have h3 := promoteAds_cdn hashing o cidOf _ _ st2 hp ?_ ?_
          · refine ⟨?_, ?_⟩
            · exact h3.1
            · intro b hb
              exact h3.2.1 b (List.mem_append.mpr (Or.inr hb))
          · intro source mirrored hmem
            obtain ⟨⟨S1, hS1, e1⟩, ⟨M1, hM1, e2⟩⟩ := hCdn source mirrored hmem
            exact ⟨⟨S1, List.mem_append.mpr (Or.inr hS1), e1⟩,
              ⟨M1, List.mem_append.mpr (Or.inr hM1), e2⟩⟩
          · intro S hS
            exact List.mem_append.mpr (Or.inl (List.mem_map.mpr ⟨S, hS, rfl⟩))
  exact ⟨key.1, fun source mirrored hl => key.1 source mirrored (lookup_mem _ _ _ hl), key.2⟩

/-- Witness of C16: a tick on the chain of two advertisements from the empty
store. -/
theorem cdn_property_witness :
    MirrorStore.empty.IsCdn exampleCidOf ∧
    tick exampleHashing exampleDefaultOptions exampleCidOf exampleChain MirrorStore.empty =
      .ok { mapping := [(103, 103), (102, 102)]
            head := some 103
            blocks := [(103, exampleSecond), (102, examplePut), (102, examplePut),
              (103, exampleSecond)] } ∧
    MirrorStore.IsCdn exampleCidOf
      { mapping := [(103, 103), (102, 102)]
        head := some 103
        blocks := [(103, exampleSecond), (102, examplePut), (102, examplePut),
          (103, exampleSecond)] } :=
  ⟨fun _ _ h => absurd h (List.not_mem_nil _), by decide,
    (cdn_property exampleHashing exampleDefaultOptions exampleCidOf exampleChain
      MirrorStore.empty _ (fun _ _ h => absurd h (List.not_mem_nil _)) (by decide)).1⟩

/-! ## Part 15a. The option loop: first error, pairing and commutation -/

theorem applyAll_append_ok (pre : List OptionFn) :
    ∀ (rest : List OptionFn) (o0 opts : options), applyAll pre o0 = .ok opts →
      applyAll (pre ++ rest) o0 = applyAll rest opts := by
  induction pre with
  | nil =>
    intro rest o0 opts h
    simp only [applyAll, Except.ok.injEq] at h
    subst h; rfl
  | cons f pre ih =>
    intro rest o0 opts h
    simp only [List.cons_append, applyAll] at h ⊢
    cases hf : f o0 with
    | error e => simp [hf] at h
    | ok o1 =>
      simp only [hf] at h ⊢
      exact ih rest o1 opts h

theorem applyAll_error (o : List OptionFn) :
    ∀ (o0 : options) (err : Error), applyAll o o0 = .error err →
      ∃ (pre : List OptionFn) (f : OptionFn) (post : List OptionFn) (opts : options),
        o = pre ++ f :: post ∧ applyAll pre o0 = .ok opts ∧ f opts = .error err := by
  induction o with
  | nil => intro o0 err h; simp [applyAll] at h
  | cons f rest ih =>
    intro o0 err h
    simp only [applyAll] at h
    cases hf : f o0 with
    | error e =>
      simp only [hf, Except.error.injEq] at h
      subst h
      exact ⟨[], f, rest, o0, rfl, rfl, hf⟩
    | ok o1 =>
      simp only [hf] at h
      obtain ⟨pre, g, post, opts, h1, h2, h3⟩ := ih o1 err h
      refine ⟨f :: pre, g, post, opts, by rw [h1]; rfl, ?_, h3⟩
      simp only [applyAll, hf]
      exact h2

/-- C21. `newOptions` stops at the first failing option: when the options before
`f` in the list succeed in turn and `f` then returns an error, `newOptions`
returns that error and no options value, whatever the options after `f` are and
whatever `libp2p.New()` would return, so nothing after `f` is applied; and
whenever the loop over an option list ends with an error, the list has such a
first failing option, whose error `newOptions` returns. -/
theorem newOptions_first_error (libp2pNew : Except Error Host) (pre post : List OptionFn)
    (f : OptionFn) (opts : options) (err : Error)
    (hpre : applyAll pre initialOptions = .ok opts)
    (hf : f opts = .error err) :
    newOptions libp2pNew (pre ++ f :: post) = .error err ∧
      (∀ (libp2pNew1 : Except Error Host) (post1 : List OptionFn),
        newOptions libp2pNew1 (pre ++ f :: post1) = .error err) ∧
      (∀ (o : List OptionFn) (err1 : Error), applyAll o initialOptions = .error err1 →
        ∃ (pre1 : List OptionFn) (f1 : OptionFn) (post1 : List OptionFn) (opts1 : options),
          o = pre1 ++ f1 :: post1 ∧ applyAll pre1 initialOptions = .ok opts1 ∧
            f1 opts1 = .error err1 ∧
            ∀ libp2pNew1 : Except Error Host, newOptions libp2pNew1 o = .error err1) := by
  have key : ∀ (libp2pNew1 : Except Error Host) (post1 : List OptionFn),
      newOptions libp2pNew1 (pre ++ f :: post1) = .error err := by
    intro libp2pNew1 post1
    unfold newOptions
    rw [applyAll_append_ok pre (f :: post1) initialOptions opts hpre]
    simp [applyAll, hf]
  refine ⟨key libp2pNew post, key, ?_⟩
  intro o err1 h
  obtain ⟨pre1, f1, post1, opts1, h1, h2, h3⟩ := applyAll_error o initialOptions err1 h
  refine ⟨pre1, f1, post1, opts1, h1, h2, h3, ?_⟩
  intro libp2pNew1
  unfold newOptions
  rw [h]

/-- Witness of C21: an option that rejects the empty topic, after `WithTopicName("")`
and before `WithTopicName("t")`. -/
theorem newOptions_first_error_witness :
    applyAll [WithTopicName ""] initialOptions = .ok { initialOptions with topic := "" } ∧
    exampleRejectEmptyTopic { initialOptions with topic := "" } =
      .error (Error.errorsNew "empty topic") ∧
    newOptions (.ok ⟨7⟩)
        ([WithTopicName ""] ++ exampleRejectEmptyTopic :: [WithTopicName "t"]) =
      .error (Error.errorsNew "empty topic") :=
  ⟨rfl, rfl,
    (newOptions_first_error (.ok ⟨7⟩) [WithTopicName ""] [WithTopicName "t"]
      exampleRejectEmptyTopic { initialOptions with topic := "" }
      (Error.errorsNew "empty topic") rfl rfl).1⟩

theorem lastRemapper_paired (l : List OptionCall) (r : NewChunkerFunc × TypedPrototype)
    (h : lastRemapper l = some r) :
    (∃ chunkSize, r = (NewChunkerFunc.chain chunkSize, TypedPrototype.EntryChunkPrototype)) ∨
      (∃ hashAlg bitwidth bucketSize,
        r = (NewChunkerFunc.hamt hashAlg bitwidth bucketSize,
          TypedPrototype.HashMapRootPrototype)) := by
  induction l with
  | nil => simp [lastRemapper] at h
  | cons c rest ih =>
    simp only [lastRemapper] at h
    cases hr : lastRemapper rest with
    | some r1 =>
      simp only [hr, Option.some.injEq] at h
      subst h
      exact ih hr
    | none =>
      simp only [hr] at h
      cases c <;> simp only [OptionCall.remap, Option.some.injEq, reduceCtorEq] at h
      · exact Or.inl ⟨_, h.symm⟩
      · exact Or.inr ⟨_, _, _, h.symm⟩

/-- C22. Chunker and prototype stay paired: for every list of option calls on
which `newOptions` succeeds, the remap prototype is set if and only if the
chunker func is set, the prototype is the EntryChunk prototype exactly when the
chunker is a chain chunker, and the HAMT root prototype exactly when it is a
HAMT chunker. -/
theorem chunker_prototype_paired (libp2pNew : Except Error Host) (l : List OptionCall)
    (o : options) (h : newOptions libp2pNew (l.map OptionCall.toOption) = .ok o) :
    (o.entriesRemapPrototype ≠ none ↔ o.chunkerFunc ≠ none) ∧
      (o.entriesRemapPrototype = some TypedPrototype.EntryChunkPrototype ↔
        ∃ chunkSize, o.chunkerFunc = some (NewChunkerFunc.chain chunkSize)) ∧
      (o.entriesRemapPrototype = some TypedPrototype.HashMapRootPrototype ↔
        ∃ hashAlg bitwidth bucketSize,
          o.chunkerFunc = some (NewChunkerFunc.hamt hashAlg bitwidth bucketSize)) := by
  have h1 := newOptions_calls_remap libp2pNew l o h
  cases hr : lastRemapper l with
  | none =>
    rw [hr] at h1
    simp only [Prod.mk.injEq] at h1
    simp [h1.1, h1.2]
  | some r =>
    rw [hr] at h1
    simp only [Prod.mk.injEq] at h1
    rcases lastRemapper_paired l r hr with ⟨n, hn⟩ | ⟨a, b, c, hn⟩ <;> subst hn <;>
      simp [h1.1, h1.2]

/-- Witness of C22: a HAMT remapper followed by an EntryChunk remapper. -/
theorem chunker_prototype_paired_witness :
    newOptions (.ok ⟨7⟩)
        ([OptionCall.hamtRemapper 34 3 1, OptionCall.entryChunkRemapper 16].map
          OptionCall.toOption) =
      .ok { initialOptions with
        h := some ⟨7⟩
        ds := some Datastore.mapDatastore
        chunkerFunc := some (NewChunkerFunc.chain 16)
        entriesRemapPrototype := some TypedPrototype.EntryChunkPrototype } ∧
    ((some TypedPrototype.EntryChunkPrototype : Option TypedPrototype) =
        some TypedPrototype.EntryChunkPrototype ↔
      ∃ chunkSize, (some (NewChunkerFunc.chain 16) : Option NewChunkerFunc) =
        some (NewChunkerFunc.chain chunkSize)) :=
  ⟨rfl,
    (chunker_prototype_paired (.ok ⟨7⟩)
      [OptionCall.hamtRemapper 34 3 1, OptionCall.entryChunkRemapper 16]
      { initialOptions with
        h := some ⟨7⟩
        ds := some Datastore.mapDatastore
        chunkerFunc := some (NewChunkerFunc.chain 16)
        entriesRemapPrototype := some TypedPrototype.EntryChunkPrototype } rfl).2.1⟩

/-- C23. Options of different kinds commute: for every options value and every two
option calls of different kinds that are not both remapper calls, applying them
in either order gives the same options value, also inside a list given to
`newOptions`; applying the same option twice gives the same value as applying it
once. -/
theorem options_commute (o : options) (c1 c2 : OptionCall)
    (hkind : c1.kind ≠ c2.kind)
    (hremap : ¬ (c1.isRemapper = true ∧ c2.isRemapper = true)) :
    applyAll [c1.toOption, c2.toOption] o = applyAll [c2.toOption, c1.toOption] o ∧
      applyAll [c1.toOption, c1.toOption] o = applyAll [c1.toOption] o ∧
      (∀ (libp2pNew : Except Error Host) (pre post : List OptionCall),
        newOptions libp2pNew ((pre ++ c1 :: c2 :: post).map OptionCall.toOption) =
          newOptions libp2pNew ((pre ++ c2 :: c1 :: post).map OptionCall.toOption)) := by
  have hcomm : ∀ o1 : options,
      applyAll [c1.toOption, c2.toOption] o1 = applyAll [c2.toOption, c1.toOption] o1 := by
    intro o1
    cases c1 <;> cases c2 <;>
      first
        | rfl
        | (exfalso; apply hkind; rfl)
        | (exfalso; apply hremap; constructor <;> rfl)
  refine ⟨hcomm o, ?_, ?_⟩
  · cases c1 <;> rfl
  · intro libp2pNew pre post
    obtain ⟨o1, h1⟩ := applyAll_calls_ok pre initialOptions
    have e1 : applyAll ((pre ++ c1 :: c2 :: post).map OptionCall.toOption) initialOptions =
        applyAll ((pre ++ c2 :: c1 :: post).map OptionCall.toOption) initialOptions := by
      simp only [List.map_append, List.map_cons]
      rw [applyAll_append_ok _ _ initialOptions o1 h1, applyAll_append_ok _ _ initialOptions o1 h1]
      obtain ⟨o2, h2⟩ := applyAll_calls_ok [c1, c2] o1
      have h3 : applyAll [c2.toOption, c1.toOption] o1 = .ok o2 := by
        rw [← hcomm o1]; exact h2
      have s1 := applyAll_append_ok [c1.toOption, c2.toOption]
        (post.map OptionCall.toOption) o1 o2 h2
      have s2 := applyAll_append_ok [c2.toOption, c1.toOption]
        (post.map OptionCall.toOption) o1 o2 h3
      simp only [List.cons_append, List.nil_append] at s1 s2
      rw [s1, s2]
    unfold newOptions
    rw [e1]

/-- Witness of C23: a topic option and a HAMT remapper option. -/
theorem options_commute_witness :
    (OptionCall.topicName "t").kind ≠ (OptionCall.hamtRemapper 34 3 1).kind ∧
    ¬ ((OptionCall.topicName "t").isRemapper = true ∧
      (OptionCall.hamtRemapper 34 3 1).isRemapper = true) ∧
    applyAll [WithTopicName "t", WithHamtRemapper 34 3 1] initialOptions =
      applyAll [WithHamtRemapper 34 3 1, WithTopicName "t"] initialOptions :=
  ⟨by decide, by decide,
    (options_commute initialOptions (OptionCall.topicName "t") (OptionCall.hamtRemapper 34 3 1)
      (by decide) (by decide)).1⟩

end mirror

namespace provider

open mirror (Error Host Datastore OptionCall PeerID AddrInfo)

/-! ## Part 16. Lemmas on `beforeMirror` -/

theorem Flow.andThen_next_iff (f : Flow) (g : MirrorVar → Flow) (M : MirrorVar) :
    f.andThen g = .next M ↔ ∃ M1, f = .next M1 ∧ g M1 = .next M := by
  cases f with
  | next M1 => simp [Flow.andThen]
  | stop M1 e => simp [Flow.andThen]

theorem Flow.andThen_extends (Q : OptionCall → Prop) (M : MirrorVar) (f : Flow)
    (g : MirrorVar → Flow)
    (hf : ∃ ext, f.state.options = M.options ++ ext ∧ ∀ c ∈ ext, Q c)
    (hg : ∀ M1, ∃ ext, (g M1).state.options = M1.options ++ ext ∧ ∀ c ∈ ext, Q c) :
    ∃ ext, (f.andThen g).state.options = M.options ++ ext ∧ ∀ c ∈ ext, Q c := by
  cases f with
  | stop M1 e => exact hf
  | next M1 =>
    obtain ⟨e1, h1, q1⟩ := hf
    obtain ⟨e2, h2, q2⟩ := hg M1
    refine ⟨e1 ++ e2, ?_, ?_⟩
    · simp only [Flow.andThen, Flow.state] at *
      rw [h2, h1, List.append_assoc]
    · intro c hc
      rcases List.mem_append.mp hc with h | h
      · exact q1 c h
      · exact q2 c h

theorem appendIfSet_extends {α : Type} (Q : OptionCall → Prop) (flag : Option α)
    (opt : α → OptionCall) (M : MirrorVar) (hQ : ∀ v, flag = some v → Q (opt v)) :
    ∃ ext, (appendIfSet flag opt M).options = M.options ++ ext ∧ ∀ c ∈ ext, Q c := by
  cases flag with
  | none => exact ⟨[], by simp [appendIfSet], by simp⟩
  | some v => exact ⟨[opt v], by simp [appendIfSet], by simpa using hQ v rfl⟩

theorem extends_trans (Q : OptionCall → Prop) (M M1 M2 : MirrorVar)
    (h1 : ∃ ext, M1.options = M.options ++ ext ∧ ∀ c ∈ ext, Q c)
    (h2 : ∃ ext, M2.options = M1.options ++ ext ∧ ∀ c ∈ ext, Q c) :
    ∃ ext, M2.options = M.options ++ ext ∧ ∀ c ∈ ext, Q c := by
  obtain ⟨e1, h1, q1⟩ := h1
  obtain ⟨e2, h2, q2⟩ := h2
  refine ⟨e1 ++ e2, by rw [h2, h1, List.append_assoc], ?_⟩
  intro c hc
  rcases List.mem_append.mp hc with h | h
  · exact q1 c h
  · exact q2 c h

theorem source_extends (env : Env) (cctx : Context) (M : MirrorVar) :
    ∃ ext, (beforeMirror.source env cctx M).state.options = M.options ++ ext ∧
      ∀ c ∈ ext, flagIsSet cctx c = true ∧ c.isRemapper = false := by
  refine ⟨[], ?_, by simp⟩
  unfold beforeMirror.source
  cases env.AddrInfoFromString cctx.source <;> simp [Flow.state]

theorem syncInterval_extends (cctx : Context) (M : MirrorVar) :
    ∃ ext, (beforeMirror.syncInterval cctx M).state.options = M.options ++ ext ∧
      ∀ c ∈ ext, flagIsSet cctx c = true ∧ c.isRemapper = false := by
  unfold beforeMirror.syncInterval
  cases h : cctx.syncInterval with
  | none => exact ⟨[], by simp [Flow.state], by simp⟩
  | some d =>
    by_cases hd : d ≤ 0
    · exact ⟨[], by simp [Flow.state, hd], by simp⟩
    · exact ⟨[OptionCall.syncInterval (some (mirror.NewTicker d))],
        by simp only [hd, if_false, Flow.state],
        by simp [flagIsSet, h, OptionCall.isRemapper]⟩

theorem host_extends (env : Env) (cctx : Context) (M : MirrorVar) :
    ∃ ext, (beforeMirror.host env cctx M).state.options = M.options ++ ext ∧
      ∀ c ∈ ext, flagIsSet cctx c = true ∧ c.isRemapper = false := by
  unfold beforeMirror.host
  cases hi : beforeMirror.identity env cctx with
  | error err => exact ⟨[], by simp [Flow.state], by simp⟩
  | ok identityOpts =>
    simp only []
    split
    · rename_i hlen
      split
      · exact ⟨[], by simp [Flow.state], by simp⟩
      · rename_i hst _
        refine ⟨[OptionCall.host (some hst)], by simp only [Flow.state], ?_⟩
        have hset : cctx.identityPath.isSome = true ∨ cctx.listenAddrs.isSome = true := by
          cases hl : cctx.listenAddrs with
          | some l => simp
          | none =>
            left
            cases hp : cctx.identityPath with
            | some p => simp
            | none =>
              simp only [hl] at hlen
              simp [beforeMirror.identity, hp] at hi
              subst hi
              simp at hlen
        rcases hset with h | h <;> simp [flagIsSet, h, OptionCall.isRemapper]
    · exact ⟨[], by simp [Flow.state], by simp⟩

theorem datastore_extends (env : Env) (cctx : Context) (M : MirrorVar) :
    ∃ ext, (beforeMirror.datastore env cctx M).state.options = M.options ++ ext ∧
      ∀ c ∈ ext, flagIsSet cctx c = true ∧ c.isRemapper = false := by
  unfold beforeMirror.datastore
  cases h : cctx.storePath with
  | none => exact ⟨[], by simp [Flow.state], by simp⟩
  | some path =>
    cases hn : env.NewDatastore path with
    | error err => exact ⟨[], by simp [Flow.state, hn], by simp⟩
    | ok ds =>
      exact ⟨[OptionCall.datastore (some ds)], by simp [Flow.state, hn],
        by simp [flagIsSet, h, OptionCall.isRemapper]⟩

theorem recurLimits_extends (cctx : Context) (M : MirrorVar) :
    ∃ ext, (beforeMirror.recurLimits cctx M).state.options = M.options ++ ext ∧
      ∀ c ∈ ext, flagIsSet cctx c = true ∧ c.isRemapper = false := by
  unfold beforeMirror.recurLimits
  simp only [Flow.state]
  apply extends_trans _ M _ _ (appendIfSet_extends _ cctx.initAdRecurLimit _ M _)
    (appendIfSet_extends _ cctx.entriesRecurLimit _ _ _)
  · intro v hv; simp [flagIsSet, hv, OptionCall.isRemapper]
  · intro v hv; simp [flagIsSet, hv, OptionCall.isRemapper]

theorem rest_extends (cctx : Context) (M : MirrorVar) :
    ∃ ext, (beforeMirror.rest cctx M).state.options = M.options ++ ext ∧
      ∀ c ∈ ext, flagIsSet cctx c = true ∧ c.isRemapper = false := by
  unfold beforeMirror.rest
  simp only [Flow.state]
  apply extends_trans _ M _ _
    (extends_trans _ M _ _ (appendIfSet_extends _ cctx.topic _ M _)
      (appendIfSet_extends _ cctx.skipRemapOnEntriesTypeMatch _ _ _))
    (appendIfSet_extends _ cctx.alwaysReSignAds _ _ _)
  · intro v hv; simp [flagIsSet, hv, OptionCall.isRemapper]
  · intro v hv; simp [flagIsSet, hv, OptionCall.isRemapper]
  · intro v hv; simp [flagIsSet, hv, OptionCall.isRemapper]

theorem remap_cases (env : Env) (cctx : Context) (M : MirrorVar) :
    (invalidRemapFlags env cctx = true ∧
        ∃ err, beforeMirror.remap env cctx M = .stop M (.returned (some err))) ∨
      (invalidRemapFlags env cctx = false ∧
        ((∃ n, cctx.remapWithEntryChunkSize = some n ∧ cctx.remapWithHamtHashFunc = none ∧
            cctx.remapWithHamtBitWidth = none ∧ cctx.remapWithHamtBucketSize = none ∧
            beforeMirror.remap env cctx M = .next { M with
              options := M.options ++ [OptionCall.entryChunkRemapper (toInt n)] }) ∨
          (∃ hf bw bs mhc, cctx.remapWithEntryChunkSize = none ∧
            cctx.remapWithHamtHashFunc = some hf ∧ cctx.remapWithHamtBitWidth = some bw ∧
            cctx.remapWithHamtBucketSize = some bs ∧ env.Names hf = some mhc ∧
            beforeMirror.remap env cctx M = .next { M with
              options := M.options ++ [OptionCall.hamtRemapper mhc (toInt bw) (toInt bs)] }) ∨
          (cctx.remapWithEntryChunkSize = none ∧ cctx.remapWithHamtHashFunc = none ∧
            cctx.remapWithHamtBitWidth = none ∧ cctx.remapWithHamtBucketSize = none ∧
            beforeMirror.remap env cctx M = .next M))) := by
  unfold beforeMirror.remap invalidRemapFlags
  cases hec : cctx.remapWithEntryChunkSize <;> cases hhf : cctx.remapWithHamtHashFunc <;>
    cases hbw : cctx.remapWithHamtBitWidth <;> cases hbs : cctx.remapWithHamtBucketSize <;>
    simp
  rename_i hf bw bs
  cases hn : env.Names hf <;> simp

theorem beforeMirror_eq (env : Env) (cctx : Context) (M : MirrorVar) (f : Flow)
    (hf : ((((((beforeMirror.source env cctx M).andThen
      (beforeMirror.syncInterval cctx)).andThen
      (beforeMirror.host env cctx)).andThen
      (beforeMirror.datastore env cctx)).andThen
      (beforeMirror.recurLimits cctx)).andThen
      (beforeMirror.remap env cctx)).andThen
      (beforeMirror.rest cctx) = f) :
    beforeMirror env cctx M = (f.state, f.exit) := by
  subst hf
  unfold beforeMirror
  split <;> rename_i h <;> rw [h] <;> rfl

theorem prefix_next (env : Env) (cctx : Context) (M : MirrorVar) (src : AddrInfo)
    (hSource : env.AddrInfoFromString cctx.source = .ok src)
    (hTicker : ∀ d, cctx.syncInterval = some d → 0 < d)
    (hIdentity : ∀ p, cctx.identityPath = some p →
      ∃ b pk, env.ReadFile p = .ok b ∧ env.UnmarshalPrivateKey b = .ok pk)
    (hHost : ∀ opts, ∃ h, env.libp2pNew opts = .ok h)
    (hStore : ∀ p, cctx.storePath = some p → ∃ ds, env.NewDatastore p = .ok ds) :
    ∃ M1, ((((beforeMirror.source env cctx M).andThen
      (beforeMirror.syncInterval cctx)).andThen
      (beforeMirror.host env cctx)).andThen
      (beforeMirror.datastore env cctx)).andThen
      (beforeMirror.recurLimits cctx) = .next M1 := by
  have h1 : beforeMirror.source env cctx M = .next { M with source := some src } := by
    simp [beforeMirror.source, hSource]
  have h2 : ∀ M0, ∃ M1, beforeMirror.syncInterval cctx M0 = .next M1 := by
    intro M0
    unfold beforeMirror.syncInterval
    cases hs : cctx.syncInterval with
    | none => exact ⟨_, rfl⟩
    | some d =>
      have := hTicker d hs
      have hd : ¬ d ≤ 0 := by omega
      simp only [hd, if_false]
      exact ⟨_, rfl⟩
  have h3 : ∀ M0, ∃ M1, beforeMirror.host env cctx M0 = .next M1 := by
    intro M0
    have hi : ∃ opts, beforeMirror.identity env cctx = .ok opts := by
      unfold beforeMirror.identity
      cases hp : cctx.identityPath with
      | none => exact ⟨_, rfl⟩
      | some p =>
        obtain ⟨b, pk, hb, hpk⟩ := hIdentity p hp
        simp only [hb, hpk]
        exact ⟨_, rfl⟩
    obtain ⟨opts, hopts⟩ := hi
    unfold beforeMirror.host
    simp only [hopts]
    split
    · rename_i hlen
      obtain ⟨h, hh⟩ := hHost (match cctx.listenAddrs with
        | some listenAddrs => opts ++ [HostOption.ListenAddrStrings listenAddrs]
        | none => opts)
      simp only [hh]
      exact ⟨_, rfl⟩
    · exact ⟨_, rfl⟩
  have h4 : ∀ M0, ∃ M1, beforeMirror.datastore env cctx M0 = .next M1 := by
    intro M0
    unfold beforeMirror.datastore
    cases hp : cctx.storePath with
    | none => exact ⟨_, rfl⟩
    | some p =>
      obtain ⟨ds, hds⟩ := hStore p hp
      simp only [hds]
      exact ⟨_, rfl⟩
  obtain ⟨M2, e2⟩ := h2 { M with source := some src }
  obtain ⟨M3, e3⟩ := h3 M2
  obtain ⟨M4, e4⟩ := h4 M3
  obtain ⟨M5, e5⟩ : ∃ M5, beforeMirror.recurLimits cctx M4 = .next M5 := ⟨_, rfl⟩
  refine ⟨M5, ?_⟩
  rw [h1]
  simp only [Flow.andThen, e2, e3, e4, e5]

theorem extends_weaken (Q R : OptionCall → Prop) (hQR : ∀ c, Q c → R c) (M M1 : MirrorVar)
    (h : ∃ ext, M1.options = M.options ++ ext ∧ ∀ c ∈ ext, Q c) :
    ∃ ext, M1.options = M.options ++ ext ∧ ∀ c ∈ ext, R c := by
  obtain ⟨ext, h1, h2⟩ := h
  exact ⟨ext, h1, fun c hc => hQR c (h2 c hc)⟩

theorem remap_extends (env : Env) (cctx : Context) (M : MirrorVar) :
    ∃ ext, (beforeMirror.remap env cctx M).state.options = M.options ++ ext ∧
      ∀ c ∈ ext, flagIsSet cctx c = true := by
  rcases remap_cases env cctx M with ⟨_, err, hr⟩ | ⟨_, hcases⟩
  · exact ⟨[], by simp [hr, Flow.state], by simp⟩
  · rcases hcases with ⟨n, h1, _, _, _, h⟩ | ⟨hf, bw, bs, mhc, _, h1, h2, h3, _, h⟩ |
        ⟨_, _, _, _, h⟩
    · exact ⟨[OptionCall.entryChunkRemapper (toInt n)], by simp [h, Flow.state],
        by simp [flagIsSet, h1]⟩
    · exact ⟨[OptionCall.hamtRemapper mhc (toInt bw) (toInt bs)], by simp [h, Flow.state],
        by simp [flagIsSet, h1, h2, h3]⟩
    · exact ⟨[], by simp [h, Flow.state], by simp⟩

theorem prefix_extends (env : Env) (cctx : Context) (M : MirrorVar) :
    ∃ ext, (((((beforeMirror.source env cctx M).andThen
      (beforeMirror.syncInterval cctx)).andThen
      (beforeMirror.host env cctx)).andThen
      (beforeMirror.datastore env cctx)).andThen
      (beforeMirror.recurLimits cctx)).state.options = M.options ++ ext ∧
      ∀ c ∈ ext, flagIsSet cctx c = true ∧ c.isRemapper = false :=
  Flow.andThen_extends _ M _ _
    (Flow.andThen_extends _ M _ _
      (Flow.andThen_extends _ M _ _
        (Flow.andThen_extends _ M _ _ (source_extends env cctx M)
          (syncInterval_extends cctx))
        (host_extends env cctx))
      (datastore_extends env cctx))
    (recurLimits_extends cctx)

theorem flow_extends (env : Env) (cctx : Context) (M : MirrorVar) :
    ∃ ext, (((((((beforeMirror.source env cctx M).andThen
      (beforeMirror.syncInterval cctx)).andThen
      (beforeMirror.host env cctx)).andThen
      (beforeMirror.datastore env cctx)).andThen
      (beforeMirror.recurLimits cctx)).andThen
      (beforeMirror.remap env cctx)).andThen
      (beforeMirror.rest cctx)).state.options = M.options ++ ext ∧
      ∀ c ∈ ext, flagIsSet cctx c = true :=
  Flow.andThen_extends _ M _ _
    (Flow.andThen_extends _ M _ _
      (extends_weaken _ _ (fun _ h => h.1) M _ (prefix_extends env cctx M))
      (remap_extends env cctx))
    (fun M1 => extends_weaken _ _ (fun _ h => h.1) M1 _ (rest_extends cctx M1))

theorem Flow.andThen_stop (f : Flow) (g : MirrorVar → Flow)
    (hf : ∀ M1, f ≠ .stop M1 (.returned none))
    (hg : ∀ M0 M1, g M0 ≠ .stop M1 (.returned none)) :
    ∀ M1, f.andThen g ≠ .stop M1 (.returned none) := by
  intro M1
  cases f with
  | next M0 => exact hg M0 M1
  | stop M0 e => exact hf M1

theorem flow_stop (env : Env) (cctx : Context) (M : MirrorVar) :
    ∀ M1, ((((((beforeMirror.source env cctx M).andThen
      (beforeMirror.syncInterval cctx)).andThen
      (beforeMirror.host env cctx)).andThen
      (beforeMirror.datastore env cctx)).andThen
      (beforeMirror.recurLimits cctx)).andThen
      (beforeMirror.remap env cctx)).andThen
      (beforeMirror.rest cctx) ≠ .stop M1 (.returned none) := by
  apply Flow.andThen_stop
  apply Flow.andThen_stop
  apply Flow.andThen_stop
  apply Flow.andThen_stop
  apply Flow.andThen_stop
  apply Flow.andThen_stop
  · intro M1
    unfold beforeMirror.source
    cases env.AddrInfoFromString cctx.source <;> simp
  · intro M0 M1
    unfold beforeMirror.syncInterval
    cases cctx.syncInterval with
    | none => simp
    | some d => by_cases hd : d ≤ 0 <;> simp [hd]
  · intro M0 M1
    unfold beforeMirror.host
    cases beforeMirror.identity env cctx with
    | error err => simp
    | ok opts =>
      simp only []
      split
      · split <;> simp
      · simp
  · intro M0 M1
    unfold beforeMirror.datastore
    cases cctx.storePath with
    | none => simp
    | some p => cases hn : env.NewDatastore p <;> simp [hn]
  · intro M0 M1
    simp [beforeMirror.recurLimits]
  · intro M0 M1
    rcases remap_cases env cctx M0 with ⟨_, err, hr⟩ | ⟨_, hcases⟩
    · simp [hr]
    · rcases hcases with ⟨n, _, _, _, _, h⟩ | ⟨hf, bw, bs, mhc, _, _, _, _, _, h⟩ |
        ⟨_, _, _, _, h⟩ <;> simp [h]
  · intro M0 M1
    simp [beforeMirror.rest]

/-! ## Part 17. The mirror command: flag validation, remap selection, defaults, exit status -/

/-- C11, counterexample. With `--syncInterval 0s --remapWithEntryChunkSize 16
--remapWithHamtBitWidth 3` the source address parses, no key file and no store
path is asked for, `libp2p.New` succeeds and condition (a) holds (the EntryChunk
size flag is set together with a HAMT flag), yet `beforeMirror` returns no error:
`time.NewTicker` (line 147) panics on the zero interval before the remap flags
are looked at. -/
theorem beforeMirror_zero_interval_counterexample :
    exampleEnv.AddrInfoFromString exampleZeroIntervalContext.source =
        .ok { ID := 1, Addrs := ["/ip4/127.0.0.1/tcp/9999/p2p/source"] } ∧
      exampleZeroIntervalContext.identityPath = none ∧
      exampleZeroIntervalContext.storePath = none ∧
      (∀ opts, ∃ h, exampleEnv.libp2pNew opts = .ok h) ∧
      exampleZeroIntervalContext.remapWithEntryChunkSize = some 16 ∧
      exampleZeroIntervalContext.remapWithHamtBitWidth = some 3 ∧
      invalidRemapFlags exampleEnv exampleZeroIntervalContext = true ∧
      (beforeMirror exampleEnv exampleZeroIntervalContext MirrorVar.init).2 =
        .panicked "non-positive interval for NewTicker" ∧
      ¬ ∃ err, (beforeMirror exampleEnv exampleZeroIntervalContext MirrorVar.init).2 =
        .returned (some err) := by
  have hb : (beforeMirror exampleEnv exampleZeroIntervalContext MirrorVar.init).2 =
      .panicked "non-positive interval for NewTicker" := by decide
  refine ⟨rfl, rfl, rfl, fun _ => ⟨⟨2⟩, rfl⟩, rfl, rfl, by decide, hb, ?_⟩
  rintro ⟨err, h⟩
  rw [hb] at h
  exact Exit.noConfusion h

/-- C11, amended. CLI remap-flag validation: when the source address parses, the
sync interval, if set, is positive, and the identity, host and datastore set-up
succeeds, `beforeMirror` returns an error if and only if (a) the EntryChunk size
flag is set together with at least one of the three HAMT flags, or (b) some but
not all of the three HAMT flags are set, or (c) all three HAMT flags are set and
the hash function name is not a known multihash name; otherwise it returns
nil. -/
theorem beforeMirror_error_iff (env : Env) (cctx : Context) (M : MirrorVar) (src : AddrInfo)
    (hSource : env.AddrInfoFromString cctx.source = .ok src)
    (hTicker : ∀ d, cctx.syncInterval = some d → 0 < d)
    (hIdentity : ∀ p, cctx.identityPath = some p →
      ∃ b pk, env.ReadFile p = .ok b ∧ env.UnmarshalPrivateKey b = .ok pk)
    (hHost : ∀ opts, ∃ h, env.libp2pNew opts = .ok h)
    (hStore : ∀ p, cctx.storePath = some p → ∃ ds, env.NewDatastore p = .ok ds) :
    ((∃ err, (beforeMirror env cctx M).2 = .returned (some err)) ↔
        invalidRemapFlags env cctx = true) ∧
      (invalidRemapFlags env cctx = false → (beforeMirror env cctx M).2 = .returned none) := by
  obtain ⟨M1, hp⟩ := prefix_next env cctx M src hSource hTicker hIdentity hHost hStore
  rcases remap_cases env cctx M1 with ⟨hinv, err, hr⟩ | ⟨hinv, hcases⟩
  · have hb := beforeMirror_eq env cctx M (.stop M1 (.returned (some err)))
      (by rw [hp]; simp [Flow.andThen, hr])
    rw [hb, hinv]
    simp [Flow.exit]
  · have hnext : ∃ M2, beforeMirror.remap env cctx M1 = .next M2 := by
      rcases hcases with ⟨n, _, _, _, _, h⟩ | ⟨hf, bw, bs, mhc, _, _, _, _, _, h⟩ |
        ⟨_, _, _, _, h⟩ <;> exact ⟨_, h⟩
    obtain ⟨M2, hr⟩ := hnext
    have hb := beforeMirror_eq env cctx M (beforeMirror.rest cctx M2)
      (by rw [hp]; simp [Flow.andThen, hr])
    rw [hb, hinv]
    simp [beforeMirror.rest, Flow.exit]

/-- Witness of C11, amended: the EntryChunk size flag together with one HAMT
flag, and no sync interval. -/
theorem beforeMirror_error_iff_witness :
    invalidRemapFlags exampleEnv exampleInvalidContext = true ∧
    ((∃ err, (beforeMirror exampleEnv exampleInvalidContext MirrorVar.init).2 =
        .returned (some err)) ↔
      invalidRemapFlags exampleEnv exampleInvalidContext = true) :=
  ⟨by decide,
    (beforeMirror_error_iff exampleEnv exampleInvalidContext MirrorVar.init
      { ID := 1, Addrs := ["/ip4/127.0.0.1/tcp/9999/p2p/source"] } rfl
      (fun _ h => Option.noConfusion h) (fun _ h => Option.noConfusion h)
      (fun _ => ⟨⟨2⟩, rfl⟩) (fun _ h => Option.noConfusion h)).1⟩

/-- C18. CLI remap selection: whenever `beforeMirror` succeeds, the options it
appended hold at most one entries-remap option: `WithEntryChunkRemapper` of the
chunk size (converted to `int`) exactly when only the EntryChunk size flag is
set, `WithHamtRemapper` of the code of the named hash, the bit-width and the
bucket size exactly when all three HAMT flags are set, and none exactly when
none of the four remap flags is set. -/
theorem beforeMirror_remap_selection (env : Env) (cctx : Context) (M M' : MirrorVar)
    (h : beforeMirror env cctx M = (M', .returned none)) :
    ∃ appended : List OptionCall, M'.options = M.options ++ appended ∧
      ((∃ n, cctx.remapWithEntryChunkSize = some n ∧ cctx.remapWithHamtHashFunc = none ∧
          cctx.remapWithHamtBitWidth = none ∧ cctx.remapWithHamtBucketSize = none ∧
          appended.filter OptionCall.isRemapper = [OptionCall.entryChunkRemapper (toInt n)]) ∨
        (∃ hf bw bs mhc, cctx.remapWithEntryChunkSize = none ∧
          cctx.remapWithHamtHashFunc = some hf ∧ cctx.remapWithHamtBitWidth = some bw ∧
          cctx.remapWithHamtBucketSize = some bs ∧ env.Names hf = some mhc ∧
          appended.filter OptionCall.isRemapper =
            [OptionCall.hamtRemapper mhc (toInt bw) (toInt bs)]) ∨
        (cctx.remapWithEntryChunkSize = none ∧ cctx.remapWithHamtHashFunc = none ∧
          cctx.remapWithHamtBitWidth = none ∧ cctx.remapWithHamtBucketSize = none ∧
          appended.filter OptionCall.isRemapper = [])) := by
  have hb := beforeMirror_eq env cctx M _ rfl
  rw [h] at hb
  have hflow : ((((((beforeMirror.source env cctx M).andThen
      (beforeMirror.syncInterval cctx)).andThen
      (beforeMirror.host env cctx)).andThen
      (beforeMirror.datastore env cctx)).andThen
      (beforeMirror.recurLimits cctx)).andThen
      (beforeMirror.remap env cctx)).andThen
      (beforeMirror.rest cctx) = .next M' := by
    generalize hf : ((((((beforeMirror.source env cctx M).andThen
      (beforeMirror.syncInterval cctx)).andThen
      (beforeMirror.host env cctx)).andThen
      (beforeMirror.datastore env cctx)).andThen
      (beforeMirror.recurLimits cctx)).andThen
      (beforeMirror.remap env cctx)).andThen
      (beforeMirror.rest cctx) = f at hb
    cases f with
    | next M1 =>
      simp only [Flow.state, Flow.exit, Prod.mk.injEq] at hb
      rw [hb.1]
    | stop M1 e =>
      simp only [Flow.state, Flow.exit, Prod.mk.injEq] at hb
      exact absurd (hb.2 ▸ hb.1 ▸ hf) (flow_stop env cctx M M')
  obtain ⟨M2, h12, hrest⟩ := (Flow.andThen_next_iff _ _ _).mp hflow
  obtain ⟨M1, hpre, hremap⟩ := (Flow.andThen_next_iff _ _ _).mp h12
  obtain ⟨A, hA, qA⟩ := prefix_extends env cctx M
  rw [hpre] at hA
  simp only [Flow.state] at hA
  obtain ⟨B, hB, qB⟩ := rest_extends cctx M2
  rw [hrest] at hB
  simp only [Flow.state] at hB
  have fA : A.filter OptionCall.isRemapper = [] := by
    rw [List.filter_eq_nil_iff]
    intro c hc
    simp [(qA c hc).2]
  have fB : B.filter OptionCall.isRemapper = [] := by
    rw [List.filter_eq_nil_iff]
    intro c hc
    simp [(qB c hc).2]
  rcases remap_cases env cctx M1 with ⟨_, err, hr⟩ | ⟨_, hcases⟩
  · rw [hr] at hremap; cases hremap
  · rcases hcases with ⟨n, h1, h2, h3, h4, hr⟩ | ⟨hf, bw, bs, mhc, h1, h2, h3, h4, h5, hr⟩ |
        ⟨h1, h2, h3, h4, hr⟩
    · rw [hr] at hremap
      cases hremap
      refine ⟨A ++ [OptionCall.entryChunkRemapper (toInt n)] ++ B, ?_, Or.inl ⟨n, h1, h2, h3, h4, ?_⟩⟩
      · rw [hB]; simp only [hA, List.append_assoc]
      · simp [List.filter_append, fA, fB, OptionCall.isRemapper]
    · rw [hr] at hremap
      cases hremap
      refine ⟨A ++ [OptionCall.hamtRemapper mhc (toInt bw) (toInt bs)] ++ B, ?_,
        Or.inr (Or.inl ⟨hf, bw, bs, mhc, h1, h2, h3, h4, h5, ?_⟩)⟩
      · rw [hB]; simp only [hA, List.append_assoc]
      · simp [List.filter_append, fA, fB, OptionCall.isRemapper]
    · rw [hr] at hremap
      cases hremap
      refine ⟨A ++ B, ?_, Or.inr (Or.inr ⟨h1, h2, h3, h4, ?_⟩)⟩
      · rw [hB, hA, List.append_assoc]
      · simp [List.filter_append, fA, fB]

/-- Witness of C18: a topic and the three HAMT flags. -/
theorem beforeMirror_remap_selection_witness :
    beforeMirror exampleEnv exampleHamtContext MirrorVar.init =
      ({ source := some { ID := 1, Addrs := ["/ip4/127.0.0.1/tcp/9999/p2p/source"] },
         options := [OptionCall.hamtRemapper 34 3 1,
           OptionCall.topicName "/indexer/ingest/testnet"] }, .returned none) ∧
    ∃ appended : List OptionCall,
      [OptionCall.hamtRemapper 34 3 1, OptionCall.topicName "/indexer/ingest/testnet"] =
        MirrorVar.init.options ++ appended ∧
      ((∃ n, exampleHamtContext.remapWithEntryChunkSize = some n ∧
          exampleHamtContext.remapWithHamtHashFunc = none ∧
          exampleHamtContext.remapWithHamtBitWidth = none ∧
          exampleHamtContext.remapWithHamtBucketSize = none ∧
          appended.filter OptionCall.isRemapper = [OptionCall.entryChunkRemapper (toInt n)]) ∨
        (∃ hf bw bs mhc, exampleHamtContext.remapWithEntryChunkSize = none ∧
          exampleHamtContext.remapWithHamtHashFunc = some hf ∧
          exampleHamtContext.remapWithHamtBitWidth = some bw ∧
          exampleHamtContext.remapWithHamtBucketSize = some bs ∧
          exampleEnv.Names hf = some mhc ∧
          appended.filter OptionCall.isRemapper =
            [OptionCall.hamtRemapper mhc (toInt bw) (toInt bs)]) ∨
        (exampleHamtContext.remapWithEntryChunkSize = none ∧
          exampleHamtContext.remapWithHamtHashFunc = none ∧
          exampleHamtContext.remapWithHamtBitWidth = none ∧
          exampleHamtContext.remapWithHamtBucketSize = none ∧
          appended.filter OptionCall.isRemapper = [])) :=
  ⟨by decide,
    beforeMirror_remap_selection exampleEnv exampleHamtContext MirrorVar.init
      { source := some { ID := 1, Addrs := ["/ip4/127.0.0.1/tcp/9999/p2p/source"] },
        options := [OptionCall.hamtRemapper 34 3 1,
          OptionCall.topicName "/indexer/ingest/testnet"] }
      (by decide)⟩

/-- C19. Unset flags keep the library defaults: every option `beforeMirror` appends
is made from a flag that is set (a host option from `identityPath` or
`listenAddrs`); a run with only the source flag appends no option, and the
mirror `mirror.New` then builds has the default topic (the one the default text
of the flag states), the ticker of 10 minutes, no recursion limit, the in-memory
datastore and no remapping. -/
theorem unset_flags_keep_defaults (env : Env) (source : String) (done : Bool)
    (src : AddrInfo) (hst : Host)
    (hSource : env.AddrInfoFromString source = .ok src)
    (hHost : env.libp2pNew [] = .ok hst)
    (hSetUp : ∀ o, env.setUp o = none) :
    (∀ (cctx : Context) (M : MirrorVar), ∃ appended : List OptionCall,
        (beforeMirror env cctx M).1.options = M.options ++ appended ∧
        ∀ c ∈ appended, flagIsSet cctx c = true) ∧
      beforeMirror env (onlySource source done) MirrorVar.init =
        ({ source := some src, options := [] }, .returned none) ∧
      ∃ m : mirror.Mirror,
        mirror.New (env.libp2pNew []) env.setUp src
          (([] : List OptionCall).map OptionCall.toOption) = .ok m ∧
        m.options.topic = "/indexer/ingest/mainnet" ∧
        topicDefaultText = "`" ++ m.options.topic ++ "`" ∧
        m.options.ticker = some (mirror.NewTicker (10 * mirror.Minute)) ∧
        m.options.initAdRecurLimit = mirror.RecursionLimitNone ∧
        m.options.entriesRecurLimit = mirror.RecursionLimitNone ∧
        m.options.ds = some Datastore.mapDatastore ∧
        m.options.h = some hst ∧
        m.options.remapEntriesEnabled = false ∧
        m.options.alwaysReSignAds = false := by
  refine ⟨?_, ?_, ?_⟩
  · intro cctx M
    rw [beforeMirror_eq env cctx M _ rfl]
    exact flow_extends env cctx M
  · simp [beforeMirror, beforeMirror.source, onlySource, hSource, Flow.andThen,
      beforeMirror.syncInterval, beforeMirror.host, beforeMirror.identity,
      beforeMirror.datastore, beforeMirror.recurLimits, beforeMirror.remap, beforeMirror.rest,
      appendIfSet, MirrorVar.init]
  · refine ⟨{ options := { mirror.initialOptions with
        h := some hst, ds := some Datastore.mapDatastore }, source := src }, ?_, rfl, rfl,
      rfl, rfl, rfl, rfl, rfl, rfl, rfl⟩
    simp [mirror.New, mirror.newOptions, mirror.applyAll, hHost, hSetUp, mirror.initialOptions]

/-- Witness of C19: the command line with the source flag only. -/
theorem unset_flags_keep_defaults_witness :
    beforeMirror exampleEnv (onlySource "/ip4/127.0.0.1/tcp/9999/p2p/source" true)
        MirrorVar.init =
      ({ source := some { ID := 1, Addrs := ["/ip4/127.0.0.1/tcp/9999/p2p/source"] },
         options := [] }, .returned none) :=
  (unset_flags_keep_defaults exampleEnv "/ip4/127.0.0.1/tcp/9999/p2p/source" true
    { ID := 1, Addrs := ["/ip4/127.0.0.1/tcp/9999/p2p/source"] } ⟨2⟩ rfl rfl
    (fun _ => rfl)).2.1

/-- C12, counterexample. Construction and `Start` succeed and the context is
cancelled, but `Shutdown` returns an error: `doMirror` returns that error. -/
theorem doMirror_shutdown_counterexample :
    (beforeMirror exampleShutdownFails exampleContext MirrorVar.init).1 =
        { source := some { ID := 1, Addrs := ["/ip4/127.0.0.1/tcp/9999/p2p/source"] },
          options := [] } ∧
    (∃ m : mirror.Mirror,
      mirror.New (exampleShutdownFails.libp2pNew []) exampleShutdownFails.setUp
        { ID := 1, Addrs := ["/ip4/127.0.0.1/tcp/9999/p2p/source"] }
        (([] : List OptionCall).map OptionCall.toOption) = .ok m ∧
      exampleShutdownFails.Start m = none) ∧
    exampleContext.Done = true ∧
    doMirror exampleShutdownFails exampleContext
        (beforeMirror exampleShutdownFails exampleContext MirrorVar.init).1 =
      .returned (some (Error.errorsNew "shutdown failed")) := by
  refine ⟨by decide, ⟨_, rfl, rfl⟩, rfl, by decide⟩

/-- C12, amended. Exit status of the mirror command: `doMirror` returns a non-nil
error if and only if `logging.SetLogLevel`, mirror construction or `Start`
fails, or the context is cancelled and `Shutdown` fails; when the first three
succeed it returns nil once the context is cancelled and `Shutdown` returns nil,
and it blocks while the context is not cancelled. -/
theorem doMirror_error_iff (env : Env) (cctx : Context) (M : MirrorVar) (src : AddrInfo)
    (hSource : M.source = some src) :
    ((∃ err, doMirror env cctx M = .returned (some err)) ↔
        ((env.SetLogLevel "provider/mirror" "info").isSome = true ∨
          (env.SetLogLevel "provider/mirror" "info" = none ∧
            ((∃ err, mirror.New (env.libp2pNew []) env.setUp src
                (M.options.map OptionCall.toOption) = .error err) ∨
              (∃ m, mirror.New (env.libp2pNew []) env.setUp src
                  (M.options.map OptionCall.toOption) = .ok m ∧
                ((env.Start m).isSome = true ∨
                  (env.Start m = none ∧ cctx.Done = true ∧
                    (env.Shutdown m).isSome = true))))))) ∧
      (∀ m, env.SetLogLevel "provider/mirror" "info" = none →
        mirror.New (env.libp2pNew []) env.setUp src (M.options.map OptionCall.toOption) = .ok m →
        env.Start m = none →
        (cctx.Done = true → env.Shutdown m = none → doMirror env cctx M = .returned none) ∧
        (cctx.Done = false → doMirror env cctx M = .blocked)) := by
  unfold doMirror
  rw [hSource]
  cases hl : env.SetLogLevel "provider/mirror" "info" with
  | some e => simp
  | none =>
    cases hn : mirror.New (env.libp2pNew []) env.setUp src (M.options.map OptionCall.toOption) with
    | error e => simp [hn]
    | ok m =>
      cases hs : env.Start m with
      | some e => simp [hn, hs]
      | none =>
        cases hd : cctx.Done with
        | false => simp [hn, hs]
        | true =>
          cases hsd : env.Shutdown m with
          | some e => simp [hn, hs, hsd]
          | none => simp [hn, hs, hsd]

/-- Witness of C12, amended: a mirror that starts and shuts down without error. -/
theorem doMirror_error_iff_witness :
    doMirror exampleEnv exampleContext
        { source := some { ID := 1, Addrs := ["/ip4/127.0.0.1/tcp/9999/p2p/source"] },
          options := [] } = .returned none :=
  ((doMirror_error_iff exampleEnv exampleContext
      { source := some { ID := 1, Addrs := ["/ip4/127.0.0.1/tcp/9999/p2p/source"] },
        options := [] }
      { ID := 1, Addrs := ["/ip4/127.0.0.1/tcp/9999/p2p/source"] } rfl).2
    { options := { mirror.initialOptions with
        h := some ⟨2⟩, ds := some Datastore.mapDatastore },
      source := { ID := 1, Addrs := ["/ip4/127.0.0.1/tcp/9999/p2p/source"] } }
    rfl rfl rfl).1 rfl rfl

end provider
